import Mathlib

/-
Verification of the embedding-fusion core of the Mists multimodal model
(`modeling_mists.py`).  Token-id tensors become lists of lists of integers,
attention masks become lists of lists of naturals (0/1 in well-formed
inputs), and each embedding vector is abstracted to a single integer value
(the merge only moves, zeroes, or copies whole vectors, so bit-for-bit
equality of vectors is equality of these values).  Floating-point values in
the projector and the cache heuristic are modelled as rationals.
-/

namespace Mists

/-- Configuration slice consumed by the merge:
`time_series_token_index`, `pad_token_id`, `ignore_index`. -/
structure MergeConfig where
  timeSeriesTokenIndex : Int
  padTokenId : Int
  ignoreIndex : Int
deriving DecidableEq, Repr

/-- Result of `_merge_input_ids_with_time_series_features`. -/
structure MergeResult where
  finalEmbedding : List (List Int)
  finalAttentionMask : List (List Nat)
  finalLabels : Option (List (List Int))
  positionIds : List (List Int)
deriving DecidableEq, Repr

/-- Running sum (`torch.cumsum`) with an explicit accumulator. -/
def cumsum (acc : Nat) : List Nat → List Nat
  | [] => []
  | x :: xs => (acc + x) :: cumsum (acc + x) xs

/-- How many fused slots one original token occupies:
`special_time_series_token_mask * (num_time_series_patches - 1) + 1`. -/
def tokenWeight (numPatches : Nat) (tsIdx : Int) (tok : Int) : Nat :=
  (if tok = tsIdx then numPatches - 1 else 0) + 1

/-- `new_token_positions` for one batch row, before the left-padding shift:
`torch.cumsum(special_mask * (P - 1) + 1, -1) - 1`. -/
def newTokenPositionsRow (numPatches : Nat) (tsIdx : Int) (row : List Int) : List Nat :=
  (cumsum 0 (row.map (tokenWeight numPatches tsIdx))).map (fun x => x - 1)

/-- `sequence_length`: number of columns of the id tensor. -/
def seqLength (inputIds : List (List Int)) : Nat :=
  (inputIds.headD []).length

/-- `num_special_time_series_tokens` for one row. -/
def numSpecialRow (tsIdx : Int) (row : List Int) : Nat :=
  row.countP (fun t => t == tsIdx)

/-- `num_special_time_series_tokens.max()` over the batch. -/
def maxNumSpecial (tsIdx : Int) (inputIds : List (List Int)) : Nat :=
  (inputIds.map (numSpecialRow tsIdx)).foldl max 0

/-- `max_embed_dim = num_special.max() * (P - 1) + sequence_length`. -/
def maxEmbedDim (tsIdx : Int) (numPatches : Nat) (inputIds : List (List Int)) : Nat :=
  maxNumSpecial tsIdx inputIds * (numPatches - 1) + seqLength inputIds

/-- `left_padding = not torch.sum(input_ids[:, -1] == pad_token_id)`:
true exactly when no row's last id equals the pad id. -/
def leftPadding (padId : Int) (inputIds : List (List Int)) : Bool :=
  inputIds.countP (fun row => decide (row.getLast? = some padId)) == 0

/-- `nb_time_series_pad = max_embed_dim - 1 - new_token_positions[:, -1]`
for one row (computed from the unshifted positions). -/
def rowNbPad (tsIdx : Int) (numPatches maxE : Nat) (row : List Int) : Nat :=
  maxE - 1 - (newTokenPositionsRow numPatches tsIdx row).getLastD 0

/-- The destination positions of one row, after the left-padding offset
`new_token_positions += nb_time_series_pad[:, None]` when applicable. -/
def rowPositions (tsIdx : Int) (numPatches maxE : Nat) (lp : Bool) (row : List Int) : List Nat :=
  let pr := newTokenPositionsRow numPatches tsIdx row
  if lp then pr.map (fun x => x + rowNbPad tsIdx numPatches maxE row) else pr

/-- Destination/value pairs for the non-placeholder tokens of one row:
the index pairs behind `final_x[batch_indices, text_to_overwrite] =
x[batch_indices, non_time_series_indices]`. -/
def textWrites (tsIdx : Int) : List Int → List Nat → List α → List (Nat × α)
  | t :: ts, p :: ps, v :: vs =>
    if t = tsIdx then textWrites tsIdx ts ps vs else (p, v) :: textWrites tsIdx ts ps vs
  | _, _, _ => []

/-- Destinations of the non-placeholder tokens of one row. -/
def textDests (tsIdx : Int) : List Int → List Nat → List Nat
  | t :: ts, p :: ps =>
    if t = tsIdx then textDests tsIdx ts ps else p :: textDests tsIdx ts ps
  | _, _ => []

/-- Destination/zero pairs for the pad tokens of one row: the index pairs
behind `final_embedding[batch_indices, indices_to_mask] = 0`. -/
def padWrites (padId : Int) : List Int → List Nat → List (Nat × Int)
  | t :: ts, p :: ps =>
    if t = padId then (p, 0) :: padWrites padId ts ps else padWrites padId ts ps
  | _, _ => []

/-- Indexed scatter: apply a list of (index, value) writes in order. -/
def writeAll (pairs : List (Nat × α)) (l : List α) : List α :=
  pairs.foldl (fun acc q => acc.set q.1 q.2) l

/-- `time_series_to_overwrite &= time_series_to_overwrite.cumsum(-1) - 1 >=
nb_time_series_pad`: drop the first `nbPad` candidate slots of a row.
`cnt` is the number of candidate slots seen so far. -/
def filterSlots (nbPad : Nat) : Nat → List Bool → List Bool
  | _, [] => []
  | cnt, b :: rest =>
    (b && decide (nbPad ≤ cnt)) :: filterSlots nbPad (if b then cnt + 1 else cnt) rest

/-- Candidate slot mask of one row (`True` except at text destinations). -/
def candRow (tsIdx : Int) (numPatches maxE : Nat) (lp : Bool) (row : List Int) : List Bool :=
  writeAll ((textDests tsIdx row (rowPositions tsIdx numPatches maxE lp row)).map
    (fun d => (d, false))) (List.replicate maxE true)

/-- `time_series_to_overwrite` for one row. -/
def rowSlots (tsIdx : Int) (numPatches maxE : Nat) (lp : Bool) (row : List Int) : List Bool :=
  filterSlots (rowNbPad tsIdx numPatches maxE row) 0 (candRow tsIdx numPatches maxE lp row)

/-- `time_series_to_overwrite` for the whole batch. -/
def slotRowsDef (tsIdx : Int) (numPatches maxE : Nat) (lp : Bool)
    (inputIds : List (List Int)) : List (List Bool) :=
  inputIds.map (rowSlots tsIdx numPatches maxE lp)

/-- `time_series_to_overwrite.sum()`. -/
def slotCountTotal (tsIdx : Int) (numPatches maxE : Nat) (lp : Bool)
    (inputIds : List (List Int)) : Nat :=
  ((slotRowsDef tsIdx numPatches maxE lp inputIds).map (fun s => s.countP id)).sum

/-- Scatter the non-placeholder values of every row into freshly allocated
rows of length `maxE` filled with `init`. -/
def textScatterRows (tsIdx : Int) (numPatches maxE : Nat) (lp : Bool)
    (inputIds : List (List Int)) (vals : List (List α)) (init : α) : List (List α) :=
  List.zipWith (fun row vrow =>
    writeAll (textWrites tsIdx row (rowPositions tsIdx numPatches maxE lp row) vrow)
      (List.replicate maxE init)) inputIds vals

/-- Fill one row's `True` slots with the next features in row-major order;
returns the filled row and the remaining features. -/
def fillRow : List Bool → List Int → List Int → List Int × List Int
  | _, [], feats => ([], feats)
  | [], es, feats => (es, feats)
  | b :: bs, e :: es, feats =>
    if b then
      match feats with
      | f :: fs =>
        let r := fillRow bs es fs
        (f :: r.1, r.2)
      | [] =>
        let r := fillRow bs es []
        (e :: r.1, r.2)
    else
      let r := fillRow bs es feats
      (e :: r.1, r.2)

/-- `final_embedding[time_series_to_overwrite] = features.reshape(-1, D)`:
thread the flattened feature list through the rows. -/
def fillRows : List (List Bool) → List (List Int) → List Int → List (List Int)
  | [], _, _ => []
  | _ :: _, [], _ => []
  | s :: ss, r :: rs, feats =>
    let p := fillRow s r feats
    p.1 :: fillRows ss rs p.2

/-- `final_attention_mask |= time_series_to_overwrite` (bitwise or). -/
def orMaskRows (maskRows : List (List Nat)) (slotRows : List (List Bool)) :
    List (List Nat) :=
  List.zipWith (fun m s => List.zipWith (fun mi b => mi ||| (if b then 1 else 0)) m s)
    maskRows slotRows

/-- `position_ids = (mask.cumsum(-1) - 1).masked_fill_(mask == 0, 1)` for one
row; `c` is the running cumulative sum. -/
def positionIdsRow (c : Nat) : List Nat → List Int
  | [] => []
  | m :: rest =>
    (if m = 0 then 1 else ((c + m : Nat) : Int) - 1) :: positionIdsRow (c + m) rest

/-- Zero the embedding at the destinations of the original pad tokens:
`final_embedding[batch_indices, indices_to_mask] = 0`. -/
def padZeroRows (padId : Int) (tsIdx : Int) (numPatches maxE : Nat) (lp : Bool)
    (inputIds : List (List Int)) (rows : List (List Int)) : List (List Int) :=
  List.zipWith (fun row er =>
    writeAll (padWrites padId row (rowPositions tsIdx numPatches maxE lp row)) er)
    inputIds rows

/-- `_merge_input_ids_with_time_series_features`.  `tsFeatures` is the
(N, P) feature batch with each embedding vector abstracted to one value;
`numPatches` is P (the second component of `time_series_features.shape`).
Returns `Except.error ()` exactly when the code raises its `ValueError`. -/
def mergeInputIdsWithTimeSeriesFeatures (cfg : MergeConfig) (numPatches : Nat)
    (tsFeatures : List (List Int)) (inputsEmbeds : List (List Int))
    (inputIds : List (List Int)) (attentionMask : List (List Nat))
    (labels : Option (List (List Int))) : Except Unit MergeResult :=
  let tsIdx := cfg.timeSeriesTokenIndex
  let maxE := maxEmbedDim tsIdx numPatches inputIds
  let lp := leftPadding cfg.padTokenId inputIds
  if slotCountTotal tsIdx numPatches maxE lp inputIds = tsFeatures.length * numPatches then
    let emb0 := textScatterRows tsIdx numPatches maxE lp inputIds inputsEmbeds 0
    let mask0 := textScatterRows tsIdx numPatches maxE lp inputIds attentionMask 0
    let slots := slotRowsDef tsIdx numPatches maxE lp inputIds
    let emb1 := fillRows slots emb0 tsFeatures.flatten
    let mask1 := orMaskRows mask0 slots
    Except.ok
      { finalEmbedding := padZeroRows cfg.padTokenId tsIdx numPatches maxE lp inputIds emb1
        finalAttentionMask := mask1
        finalLabels := labels.map (fun ls =>
          textScatterRows tsIdx numPatches maxE lp inputIds ls cfg.ignoreIndex)
        positionIds := mask1.map (positionIdsRow 0) }
  else
    Except.error ()

/-- One dense layer `x ↦ W x + b` over rationals. -/
def linearLayer (w : List (List ℚ)) (b : List ℚ) (x : List ℚ) : List ℚ :=
  List.zipWith (fun wrow bi => (List.zipWith (fun wi xi => wi * xi) wrow x).sum + bi) w b

/-- `masked_features = features * mask + mask_embedding * (1 - mask)` at one
patch position (the validity `m` is a scalar broadcast over the vector). -/
def blendFeature (fallback : List ℚ) (m : ℚ) (x : List ℚ) : List ℚ :=
  List.zipWith (fun xi fi => xi * m + fi * (1 - m)) x fallback

/-- `MistsMultiModalProjector.forward`: blend with the learned fallback
vector, then `linear_1`, the activation, then `linear_2`. -/
def projectorForward (w1 : List (List ℚ)) (b1 : List ℚ) (w2 : List (List ℚ)) (b2 : List ℚ)
    (act : ℚ → ℚ) (fallback : List ℚ)
    (features : List (List (List ℚ))) (inputMask : List (List ℚ)) :
    List (List (List ℚ)) :=
  List.zipWith (fun inst mrow =>
    List.zipWith (fun x m =>
      linearLayer w2 b2 ((linearLayer w1 b1 (blendFeature fallback m x)).map act))
      inst mrow) features inputMask

/-- `past_key_values[0][0][:, :, :, 0]`: first head-dim component of the
first layer's keys, shape (batch, heads, cache length). -/
def headSlice (pkv : List (List (List (List ℚ)))) : List (List (List ℚ)) :=
  pkv.map (fun hs => hs.map (fun ss => ss.map (fun ds => ds.headD 0)))

/-- `first_layer_past_key_value.float().sum(-2)` for one batch row: sum over
the head dimension, giving one rational per cache position. -/
def sumHeads (bRow : List (List ℚ)) (s : Nat) : List ℚ :=
  (List.range s).map (fun j => (bRow.map (fun hRow => hRow.getD j 0)).sum)

/-- Extended attention-mask row: ones over the cache length, zeroed where the
summed key values are exactly zero. -/
def extendedRow (bRow : List (List ℚ)) (s : Nat) : List Nat :=
  (sumHeads bRow s).map (fun q => if q = 0 then 0 else 1)

/-- The decode-step branch of `forward`: build the extended attention mask,
concatenate the current step's mask suffix (`attention_mask[:, -1:]`), and
set `position_ids = torch.sum(attention_mask, dim=1).unsqueeze(-1) - 1`. -/
def cacheStep (pkv : List (List (List (List ℚ)))) (attnMask : List (List Nat)) :
    List (List Nat) × List (List Int) :=
  let sliced := headSlice pkv
  let pastLength := ((sliced.headD []).headD []).length
  let newMask := List.zipWith
    (fun bRow amRow => extendedRow bRow pastLength ++ amRow.drop (amRow.length - 1))
    sliced attnMask
  (newMask, newMask.map (fun r => [((r.sum : Nat) : Int) - 1]))

/-- The triple of inputs `forward` hands to the language model. -/
structure LMInputs where
  inputsEmbeds : List (List Int)
  attentionMask : List (List Nat)
  positionIds : Option (List (List Int))
deriving DecidableEq, Repr

/-- The input-preparation logic of `MistsForConditionalGeneration.forward`:
what reaches the language-model call.  `embedLookup` models
`get_input_embeddings()`, `encodeTS` models the time-series tower followed
by the projector. -/
def forwardLMInputs {α β : Type} (cfg : MergeConfig) (embedLookup : Int → Int)
    (encodeTS : α → Option β → List (List Int))
    (inputIds : List (List Int)) (tsValues : Option α) (tsMask : Option β)
    (attnMask : List (List Nat)) (posIds : Option (List (List Int)))
    (pastKV : Option (List (List (List (List ℚ)))))
    (labels : Option (List (List Int)))
    (inputsEmbeds : Option (List (List Int))) : Except Unit LMInputs :=
  match inputsEmbeds with
  | some e => Except.ok ⟨e, attnMask, posIds⟩
  | none =>
    let embeds := inputIds.map (fun row => row.map embedLookup)
    match tsValues with
    | some v =>
      if seqLength inputIds ≠ 1 then
        let feats := encodeTS v tsMask
        match mergeInputIdsWithTimeSeriesFeatures cfg ((feats.headD []).length) feats
            embeds inputIds attnMask labels with
        | Except.ok res =>
          Except.ok ⟨res.finalEmbedding, res.finalAttentionMask, some res.positionIds⟩
        | Except.error u => Except.error u
      else
        match pastKV with
        | some kv =>
          let p := cacheStep kv attnMask
          Except.ok ⟨embeds, p.1, some p.2⟩
        | none => Except.ok ⟨embeds, attnMask, posIds⟩
    | none => Except.ok ⟨embeds, attnMask, posIds⟩

theorem writeAll_nil (l : List α) : writeAll [] l = l := rfl

theorem writeAll_cons (q : Nat × α) (qs : List (Nat × α)) (l : List α) :
    writeAll (q :: qs) l = writeAll qs (l.set q.1 q.2) := rfl

theorem length_writeAll (pairs : List (Nat × α)) (l : List α) :
    (writeAll pairs l).length = l.length := by
  induction pairs generalizing l with
  | nil => rfl
  | cons q qs ih => rw [writeAll_cons, ih, List.length_set]

theorem getElem?_writeAll_not_mem (pairs : List (Nat × α)) (l : List α) (j : Nat)
    (h : ∀ q ∈ pairs, q.1 ≠ j) : (writeAll pairs l)[j]? = l[j]? := by
  induction pairs generalizing l with
  | nil => rfl
  | cons q qs ih =>
    rw [writeAll_cons, ih _ (fun q' hq' => h q' (List.mem_cons_of_mem _ hq'))]
    exact List.getElem?_set_ne (h q (List.mem_cons_self ..))

theorem getElem?_writeAll_mem_nodup (pairs : List (Nat × α)) (l : List α) (j : Nat) (v : α)
    (hnd : (pairs.map Prod.fst).Nodup) (hmem : (j, v) ∈ pairs) (hj : j < l.length) :
    (writeAll pairs l)[j]? = some v := by
  induction pairs generalizing l with
  | nil => cases hmem
  | cons q qs ih =>
    rw [writeAll_cons]
    rcases List.mem_cons.1 hmem with heq | hmem'
    · subst heq
      have hnot : ∀ q' ∈ qs, q'.1 ≠ j := by
        intro q' hq' hq1
        have h1 : q'.1 ∈ qs.map Prod.fst := List.mem_map_of_mem Prod.fst hq'
        rw [hq1] at h1
        exact (List.nodup_cons.1 hnd).1 h1
      rw [getElem?_writeAll_not_mem _ _ _ hnot]
      exact List.getElem?_set_eq_of_lt _ hj
    · have hj' : j < (l.set q.1 q.2).length := by rw [List.length_set]; exact hj
      exact ih _ (List.nodup_cons.1 hnd).2 hmem' hj'

theorem getElem?_writeAll_const (pairs : List (Nat × α)) (v : α) (l : List α) (j : Nat)
    (hall : ∀ q ∈ pairs, q.2 = v) (hmem : j ∈ pairs.map Prod.fst) (hj : j < l.length) :
    (writeAll pairs l)[j]? = some v := by
  induction pairs generalizing l with
  | nil => cases hmem
  | cons q qs ih =>
    rw [writeAll_cons]
    by_cases hqs : j ∈ qs.map Prod.fst
    · have hj' : j < (l.set q.1 q.2).length := by rw [List.length_set]; exact hj
      exact ih _ (fun q' hq' => hall q' (List.mem_cons_of_mem _ hq')) hqs hj'
    · have hq1 : q.1 = j := by
        rcases (by simpa using hmem : j = q.1 ∨ ∃ x, (j, x) ∈ qs) with h | ⟨x, hx⟩
        · exact h.symm
        · exact absurd (List.mem_map_of_mem Prod.fst hx) hqs
      have hnot : ∀ q' ∈ qs, q'.1 ≠ j := by
        intro q' hq' hq1'
        have h1 : q'.1 ∈ qs.map Prod.fst := List.mem_map_of_mem Prod.fst hq'
        rw [hq1'] at h1
        exact hqs h1
      rw [getElem?_writeAll_not_mem _ _ _ hnot]
      have hv : q.2 = v := hall q (List.mem_cons_self ..)
      rw [← hq1, hv]
      exact List.getElem?_set_eq_of_lt _ (hq1 ▸ hj)

theorem forall_mem_writeAll {p : α → Prop} (pairs : List (Nat × α)) (l : List α)
    (hl : ∀ x ∈ l, p x) (hp : ∀ q ∈ pairs, p q.2) : ∀ x ∈ writeAll pairs l, p x := by
  induction pairs generalizing l with
  | nil => exact hl
  | cons q qs ih =>
    rw [writeAll_cons]
    refine ih _ (fun x hx => ?_) (fun q' hq' => hp q' (List.mem_cons_of_mem _ hq'))
    rcases List.mem_or_eq_of_mem_set hx with h | h
    · exact hl x h
    · exact h ▸ hp q (List.mem_cons_self ..)

theorem writeAll_map_succ (pairs : List (Nat × α)) (x : α) (l : List α) :
    writeAll (pairs.map (fun q => (q.1 + 1, q.2))) (x :: l) = x :: writeAll pairs l := by
  induction pairs generalizing l with
  | nil => rfl
  | cons q qs ih =>
    rw [List.map_cons, writeAll_cons, writeAll_cons]
    exact ih (l.set q.1 q.2)

theorem writeAll_zip_range (vals : List α) (init : α) :
    writeAll ((List.range vals.length).zip vals) (List.replicate vals.length init) = vals := by
  induction vals with
  | nil => rfl
  | cons v vs ih =>
    have hz : (List.range (vs.length + 1)).zip (v :: vs)
        = (0, v) :: ((List.range vs.length).zip vs).map (fun q => (q.1 + 1, q.2)) := by
      rw [List.range_succ_eq_map, List.zip_cons_cons]
      congr 1
      rw [List.zip_map_left]
      apply List.map_congr_left
      intro a _
      rfl
    rw [List.length_cons, hz, writeAll_cons]
    have hset : (List.replicate (vs.length + 1) init).set 0 v = v :: List.replicate vs.length init := by
      rw [List.replicate_succ]
      rfl
    rw [hset, writeAll_map_succ, ih]

theorem writeAll_range_const (n : Nat) (c : α) (l : List α) (h : l.length = n) :
    writeAll ((List.range n).map (fun d => (d, c))) l = List.replicate n c := by
  induction n generalizing l with
  | zero => rw [List.length_eq_zero] at h; subst h; rfl
  | succ n ih =>
    cases l with
    | nil => simp at h
    | cons x xs =>
      rw [List.range_succ_eq_map, List.map_cons, writeAll_cons, List.map_map]
      have : (xs.length) = n := by simpa using h
      have hmap : (List.range n).map ((fun d => (d, c)) ∘ (· + 1))
          = ((List.range n).map (fun d => (d, c))).map (fun q => (q.1 + 1, q.2)) := by
        rw [List.map_map]
        rfl
      rw [hmap]
      show writeAll _ (c :: xs) = _
      rw [writeAll_map_succ, ih xs this, List.replicate_succ]

theorem length_cumsum (a : Nat) (l : List Nat) : (cumsum a l).length = l.length := by
  induction l generalizing a with
  | nil => rfl
  | cons x xs ih => simp [cumsum, ih]

theorem getElem?_cumsum (a : Nat) (l : List Nat) (i : Nat) (h : i < l.length) :
    (cumsum a l)[i]? = some (a + (l.take (i + 1)).sum) := by
  induction l generalizing a i with
  | nil => cases h
  | cons x xs ih =>
    cases i with
    | zero => simp [cumsum]
    | succ i =>
      have hi : i < xs.length := by simpa using h
      simp only [cumsum, List.getElem?_cons_succ, List.take_succ_cons, List.sum_cons]
      rw [ih (a + x) i hi]
      congr 1
      omega

theorem mem_cumsum_lt (a : Nat) (l : List Nat) (h1 : ∀ x ∈ l, 1 ≤ x) (y : Nat)
    (hy : y ∈ cumsum a l) : a < y := by
  induction l generalizing a with
  | nil => cases hy
  | cons x xs ih =>
    rcases List.mem_cons.1 hy with h | h
    · have := h1 x (List.mem_cons_self ..)
      omega
    · have := ih (a + x) (fun z hz => h1 z (List.mem_cons_of_mem _ hz)) h
      omega

theorem pairwise_lt_cumsum (a : Nat) (l : List Nat) (h1 : ∀ x ∈ l, 1 ≤ x) :
    (cumsum a l).Pairwise (· < ·) := by
  induction l generalizing a with
  | nil => exact List.Pairwise.nil
  | cons x xs ih =>
    refine List.Pairwise.cons (fun y hy => ?_) (ih (a + x) (fun z hz => h1 z (List.mem_cons_of_mem _ hz)))
    exact mem_cumsum_lt (a + x) xs (fun z hz => h1 z (List.mem_cons_of_mem _ hz)) y hy

theorem getLast?_cumsum (a : Nat) (l : List Nat) (h : l ≠ []) :
    (cumsum a l).getLast? = some (a + l.sum) := by
  induction l generalizing a with
  | nil => exact absurd rfl h
  | cons x xs ih =>
    cases xs with
    | nil => simp [cumsum]
    | cons y ys =>
      have hcons : cumsum (a + x) (y :: ys) = (a + x + y) :: cumsum (a + x + y) ys := rfl
      show ((a + x) :: cumsum (a + x) (y :: ys)).getLast? = _
      rw [hcons, List.getLast?_cons_cons, ← hcons, ih (a + x) (by simp)]
      congr 1
      simp only [List.sum_cons]
      omega

theorem one_le_tokenWeight (numPatches : Nat) (tsIdx t : Int) :
    1 ≤ tokenWeight numPatches tsIdx t := by
  simp [tokenWeight]

theorem length_newTokenPositionsRow (numPatches : Nat) (tsIdx : Int) (row : List Int) :
    (newTokenPositionsRow numPatches tsIdx row).length = row.length := by
  simp [newTokenPositionsRow, length_cumsum]

theorem length_rowPositions (tsIdx : Int) (numPatches maxE : Nat) (lp : Bool) (row : List Int) :
    (rowPositions tsIdx numPatches maxE lp row).length = row.length := by
  unfold rowPositions
  split <;> simp [length_newTokenPositionsRow]

theorem getElem?_newTokenPositionsRow (numPatches : Nat) (tsIdx : Int) (row : List Int)
    (c : Nat) (h : c < row.length) :
    (newTokenPositionsRow numPatches tsIdx row)[c]? =
      some (((row.take (c + 1)).map (tokenWeight numPatches tsIdx)).sum - 1) := by
  unfold newTokenPositionsRow
  rw [List.getElem?_map, getElem?_cumsum 0 _ c (by simpa using h)]
  simp [List.map_take]

theorem sum_tokenWeights (numPatches : Nat) (tsIdx : Int) (row : List Int) :
    ((row.map (tokenWeight numPatches tsIdx)).sum)
      = row.length + numSpecialRow tsIdx row * (numPatches - 1) := by
  induction row with
  | nil => simp [numSpecialRow]
  | cons t ts ih =>
    simp only [numSpecialRow] at ih ⊢
    simp only [List.map_cons, List.sum_cons, List.length_cons, List.countP_cons]
    rw [ih]
    by_cases h : t = tsIdx
    · simp only [tokenWeight, beq_iff_eq, if_pos h]
      ring
    · simp only [tokenWeight, beq_iff_eq, if_neg h]
      ring

theorem take_sum_le (l : List Nat) (n : Nat) : (l.take n).sum ≤ l.sum := by
  conv_rhs => rw [← List.take_append_drop n l]
  rw [List.sum_append]
  omega

theorem one_le_take_weights_sum (numPatches : Nat) (tsIdx : Int) (row : List Int) (c : Nat)
    (h : c < row.length) : 1 ≤ ((row.take (c + 1)).map (tokenWeight numPatches tsIdx)).sum := by
  cases row with
  | nil => cases h
  | cons t ts =>
    simp only [List.take_succ_cons, List.map_cons, List.sum_cons]
    have := one_le_tokenWeight numPatches tsIdx t
    omega

theorem pairwise_lt_newTokenPositionsRow (numPatches : Nat) (tsIdx : Int) (row : List Int) :
    (newTokenPositionsRow numPatches tsIdx row).Pairwise (· < ·) := by
  unfold newTokenPositionsRow
  rw [List.pairwise_map]
  have hone : ∀ x ∈ row.map (tokenWeight numPatches tsIdx), 1 ≤ x := by
    intro x hx
    rcases List.mem_map.1 hx with ⟨t, _, ht⟩
    exact ht ▸ one_le_tokenWeight numPatches tsIdx t
  refine (pairwise_lt_cumsum 0 _ hone).imp_of_mem ?_
  intro a b ha hb hab
  have h1 : 0 < a := mem_cumsum_lt 0 _ hone a ha
  omega

theorem pairwise_lt_rowPositions (tsIdx : Int) (numPatches maxE : Nat) (lp : Bool)
    (row : List Int) : (rowPositions tsIdx numPatches maxE lp row).Pairwise (· < ·) := by
  unfold rowPositions
  split
  · rw [List.pairwise_map]
    exact (pairwise_lt_newTokenPositionsRow numPatches tsIdx row).imp (by omega)
  · exact pairwise_lt_newTokenPositionsRow numPatches tsIdx row

theorem getElem?_inj_of_pairwise_lt (l : List Nat) (hp : l.Pairwise (· < ·)) (i j d : Nat)
    (hi : l[i]? = some d) (hj : l[j]? = some d) : i = j := by
  have hlt : ∀ a b : Nat, a < b → ∀ x y : Nat, l[a]? = some x → l[b]? = some y → x < y := by
    intro a b hab x y hx hy
    have ha : a < l.length := by
      by_contra hc
      rw [List.getElem?_eq_none (by omega)] at hx
      cases hx
    have hb : b < l.length := by
      by_contra hc
      rw [List.getElem?_eq_none (by omega)] at hy
      cases hy
    have := (List.pairwise_iff_getElem).1 hp a b ha hb hab
    rw [List.getElem?_eq_getElem ha] at hx
    rw [List.getElem?_eq_getElem hb] at hy
    cases hx
    cases hy
    exact this
  rcases Nat.lt_trichotomy i j with h | h | h
  · exact absurd (hlt i j h d d hi hj) (lt_irrefl d)
  · exact h
  · exact absurd (hlt j i h d d hj hi) (lt_irrefl d)

theorem getLast?_newTokenPositionsRow (numPatches : Nat) (tsIdx : Int) (row : List Int)
    (h : row ≠ []) :
    (newTokenPositionsRow numPatches tsIdx row).getLast? =
      some ((row.map (tokenWeight numPatches tsIdx)).sum - 1) := by
  unfold newTokenPositionsRow
  rw [List.getLast?_map, getLast?_cumsum 0 _ (by simpa using h)]
  simp

theorem rowNbPad_eq (tsIdx : Int) (numPatches maxE : Nat) (row : List Int) (h : row ≠ []) :
    rowNbPad tsIdx numPatches maxE row
      = maxE - (row.length + numSpecialRow tsIdx row * (numPatches - 1)) := by
  unfold rowNbPad
  rw [List.getLastD_eq_getLast?, getLast?_newTokenPositionsRow numPatches tsIdx row h]
  have hsum := sum_tokenWeights numPatches tsIdx row
  have hone : 1 ≤ (row.map (tokenWeight numPatches tsIdx)).sum := by
    cases row with
    | nil => exact absurd rfl h
    | cons t ts =>
      simp only [List.map_cons, List.sum_cons]
      have := one_le_tokenWeight numPatches tsIdx t
      omega
  simp only [Option.getD_some]
  omega

theorem le_foldl_max (l : List Nat) (b : Nat) : b ≤ l.foldl max b := by
  induction l generalizing b with
  | nil => exact le_refl b
  | cons x xs ih => exact le_trans (Nat.le_max_left b x) (ih (max b x))

theorem mem_le_foldl_max (l : List Nat) (a : Nat) (h : a ∈ l) :
    ∀ b, a ≤ l.foldl max b := by
  induction l with
  | nil => cases h
  | cons x xs ih =>
    intro b
    rw [List.foldl_cons]
    rcases List.mem_cons.1 h with h1 | h1
    · subst h1
      exact le_trans (Nat.le_max_right b a) (le_foldl_max xs (max b a))
    · exact ih h1 (max b x)

theorem seqLength_eq (inputIds : List (List Int)) (row : List Int) (hrow : row ∈ inputIds)
    (L : Nat) (hlen : ∀ r ∈ inputIds, r.length = L) : seqLength inputIds = L := by
  cases inputIds with
  | nil => cases hrow
  | cons x xs => exact hlen x (List.mem_cons_self ..)

theorem numSpecial_le_max (tsIdx : Int) (inputIds : List (List Int)) (row : List Int)
    (hrow : row ∈ inputIds) : numSpecialRow tsIdx row ≤ maxNumSpecial tsIdx inputIds :=
  mem_le_foldl_max _ _ (List.mem_map_of_mem (numSpecialRow tsIdx) hrow) 0

theorem weights_sum_le_maxEmbedDim (tsIdx : Int) (numPatches : Nat)
    (inputIds : List (List Int)) (row : List Int) (hrow : row ∈ inputIds)
    (L : Nat) (hlen : ∀ r ∈ inputIds, r.length = L) :
    (row.map (tokenWeight numPatches tsIdx)).sum ≤ maxEmbedDim tsIdx numPatches inputIds := by
  rw [sum_tokenWeights]
  unfold maxEmbedDim
  rw [seqLength_eq inputIds row hrow L hlen, hlen row hrow]
  have h1 := numSpecial_le_max tsIdx inputIds row hrow
  have h2 : numSpecialRow tsIdx row * (numPatches - 1)
      ≤ maxNumSpecial tsIdx inputIds * (numPatches - 1) := Nat.mul_le_mul_right _ h1
  omega

theorem rowPositions_lt_maxE (tsIdx : Int) (numPatches : Nat) (lp : Bool)
    (inputIds : List (List Int)) (row : List Int) (hrow : row ∈ inputIds)
    (L : Nat) (hL : 1 ≤ L) (hlen : ∀ r ∈ inputIds, r.length = L)
    (c d : Nat)
    (hc : (rowPositions tsIdx numPatches (maxEmbedDim tsIdx numPatches inputIds) lp row)[c]?
      = some d) :
    d < maxEmbedDim tsIdx numPatches inputIds := by
  set maxE := maxEmbedDim tsIdx numPatches inputIds with hmaxE
  have hclen : c < row.length := by
    by_contra hcon
    rw [List.getElem?_eq_none (by rw [length_rowPositions]; omega)] at hc
    cases hc
  have hrowne : row ≠ [] := by
    intro hcon
    rw [hcon] at hclen
    cases hclen
  have hsumle := weights_sum_le_maxEmbedDim tsIdx numPatches inputIds row hrow L hlen
  have htake : ((row.take (c + 1)).map (tokenWeight numPatches tsIdx)).sum
      ≤ (row.map (tokenWeight numPatches tsIdx)).sum := by
    have h' := take_sum_le (row.map (tokenWeight numPatches tsIdx)) (c + 1)
    rw [← List.map_take] at h'
    exact h'
  have hone := one_le_take_weights_sum numPatches tsIdx row c hclen
  unfold rowPositions at hc
  by_cases hlp : lp = true
  · rw [if_pos hlp] at hc
    rw [List.getElem?_map, getElem?_newTokenPositionsRow numPatches tsIdx row c hclen] at hc
    simp only [Option.map_some'] at hc
    have hd := Option.some.inj hc
    rw [rowNbPad_eq tsIdx numPatches maxE row hrowne] at hd
    rw [sum_tokenWeights] at hsumle
    have hfull := sum_tokenWeights numPatches tsIdx row
    omega
  · rw [if_neg hlp] at hc
    rw [getElem?_newTokenPositionsRow numPatches tsIdx row c hclen] at hc
    have hd := Option.some.inj hc
    omega

theorem textWrites_nil_row (tsIdx : Int) (pos : List Nat) (vals : List α) :
    textWrites tsIdx [] pos vals = [] := rfl

theorem textWrites_map_fst_sublist (tsIdx : Int) (row : List Int) (pos : List Nat)
    (vals : List α) : List.Sublist ((textWrites tsIdx row pos vals).map Prod.fst) pos := by
  induction row generalizing pos vals with
  | nil => rw [textWrites_nil_row]; exact List.nil_sublist pos
  | cons t ts ih =>
    cases pos with
    | nil => exact List.Sublist.refl _
    | cons p ps =>
      cases vals with
      | nil =>
        show List.Sublist (List.map Prod.fst []) (p :: ps)
        exact List.nil_sublist _
      | cons v vs =>
        show List.Sublist (List.map Prod.fst (if t = tsIdx then textWrites tsIdx ts ps vs
          else (p, v) :: textWrites tsIdx ts ps vs)) (p :: ps)
        split
        · exact List.Sublist.cons p (ih ps vs)
        · rw [List.map_cons]
          exact List.Sublist.cons₂ p (ih ps vs)

theorem nodup_textWrites_fst (tsIdx : Int) (row : List Int) (pos : List Nat) (vals : List α)
    (hpos : pos.Pairwise (· < ·)) : ((textWrites tsIdx row pos vals).map Prod.fst).Nodup :=
  ((hpos.imp (fun h => Nat.ne_of_lt h)).sublist (textWrites_map_fst_sublist tsIdx row pos vals))

theorem textWrites_mem_of_getElem (tsIdx : Int) (row : List Int) (pos : List Nat)
    (vals : List α) (c : Nat) (t : Int) (d : Nat) (v : α)
    (h1 : row[c]? = some t) (h2 : t ≠ tsIdx) (h3 : pos[c]? = some d)
    (h4 : vals[c]? = some v) : (d, v) ∈ textWrites tsIdx row pos vals := by
  induction row generalizing pos vals c with
  | nil => cases h1
  | cons t0 ts ih =>
    cases pos with
    | nil => cases h3
    | cons p ps =>
      cases vals with
      | nil => cases h4
      | cons v0 vs =>
        cases c with
        | zero =>
          have ht : t0 = t := by simpa using h1
          have hp : p = d := by simpa using h3
          have hv : v0 = v := by simpa using h4
          show (d, v) ∈ if t0 = tsIdx then textWrites tsIdx ts ps vs
            else (p, v0) :: textWrites tsIdx ts ps vs
          rw [if_neg (by rw [ht]; exact h2), hp, hv]
          exact List.mem_cons_self ..
        | succ c =>
          have h1' : ts[c]? = some t := by simpa using h1
          have h3' : ps[c]? = some d := by simpa using h3
          have h4' : vs[c]? = some v := by simpa using h4
          have hmem := ih ps vs c h1' h3' h4'
          show (d, v) ∈ if t0 = tsIdx then textWrites tsIdx ts ps vs
            else (p, v0) :: textWrites tsIdx ts ps vs
          split
          · exact hmem
          · exact List.mem_cons_of_mem _ hmem

theorem textWrites_getElem_of_mem (tsIdx : Int) (row : List Int) (pos : List Nat)
    (vals : List α) (q : Nat × α) (h : q ∈ textWrites tsIdx row pos vals) :
    ∃ (c : Nat) (t : Int),
      row[c]? = some t ∧ t ≠ tsIdx ∧ pos[c]? = some q.1 ∧ vals[c]? = some q.2 := by
  induction row generalizing pos vals with
  | nil => rw [textWrites_nil_row] at h; cases h
  | cons t0 ts ih =>
    cases pos with
    | nil => cases h
    | cons p ps =>
      cases vals with
      | nil => cases h
      | cons v0 vs =>
        rw [show textWrites tsIdx (t0 :: ts) (p :: ps) (v0 :: vs)
          = if t0 = tsIdx then textWrites tsIdx ts ps vs
            else (p, v0) :: textWrites tsIdx ts ps vs from rfl] at h
        split at h
        · rcases ih ps vs h with ⟨c, t, hc1, hc2, hc3, hc4⟩
          exact ⟨c + 1, t, by simpa using hc1, hc2, by simpa using hc3, by simpa using hc4⟩
        · rcases List.mem_cons.1 h with heq | hmem
          · refine ⟨0, t0, by simp, by assumption, ?_, ?_⟩
            · rw [heq]; simp
            · rw [heq]; simp
          · rcases ih ps vs hmem with ⟨c, t, hc1, hc2, hc3, hc4⟩
            exact ⟨c + 1, t, by simpa using hc1, hc2, by simpa using hc3, by simpa using hc4⟩

theorem textWrites_snd_mem (tsIdx : Int) (row : List Int) (pos : List Nat) (vals : List α)
    (q : Nat × α) (h : q ∈ textWrites tsIdx row pos vals) : q.2 ∈ vals := by
  rcases textWrites_getElem_of_mem tsIdx row pos vals q h with ⟨c, t, _, _, _, h4⟩
  exact List.getElem?_mem h4

theorem textDests_nil_row (tsIdx : Int) (pos : List Nat) : textDests tsIdx [] pos = [] := rfl

theorem textDests_mem_of_getElem (tsIdx : Int) (row : List Int) (pos : List Nat)
    (c : Nat) (t : Int) (d : Nat) (h1 : row[c]? = some t) (h2 : t ≠ tsIdx)
    (h3 : pos[c]? = some d) : d ∈ textDests tsIdx row pos := by
  induction row generalizing pos c with
  | nil => cases h1
  | cons t0 ts ih =>
    cases pos with
    | nil => cases h3
    | cons p ps =>
      cases c with
      | zero =>
        have ht : t0 = t := by simpa using h1
        have hp : p = d := by simpa using h3
        show d ∈ if t0 = tsIdx then textDests tsIdx ts ps else p :: textDests tsIdx ts ps
        rw [if_neg (by rw [ht]; exact h2), hp]
        exact List.mem_cons_self ..
      | succ c =>
        have h1' : ts[c]? = some t := by simpa using h1
        have h3' : ps[c]? = some d := by simpa using h3
        have hmem := ih ps c h1' h3'
        show d ∈ if t0 = tsIdx then textDests tsIdx ts ps else p :: textDests tsIdx ts ps
        split
        · exact hmem
        · exact List.mem_cons_of_mem _ hmem

theorem textDests_no_special (tsIdx : Int) (row : List Int) (pos : List Nat)
    (h : ∀ t ∈ row, t ≠ tsIdx) (hlen : row.length = pos.length) :
    textDests tsIdx row pos = pos := by
  induction row generalizing pos with
  | nil =>
    rw [textDests_nil_row]
    cases pos with
    | nil => rfl
    | cons p ps => simp at hlen
  | cons t0 ts ih =>
    cases pos with
    | nil => simp at hlen
    | cons p ps =>
      show (if t0 = tsIdx then textDests tsIdx ts ps else p :: textDests tsIdx ts ps) = p :: ps
      rw [if_neg (h t0 (List.mem_cons_self ..))]
      rw [ih ps (fun t ht => h t (List.mem_cons_of_mem _ ht)) (by simpa using hlen)]

theorem textWrites_no_special (tsIdx : Int) (row : List Int) (pos : List Nat) (vals : List α)
    (h : ∀ t ∈ row, t ≠ tsIdx) (hlen1 : row.length = pos.length)
    (hlen2 : row.length = vals.length) :
    textWrites tsIdx row pos vals = pos.zip vals := by
  induction row generalizing pos vals with
  | nil =>
    rw [textWrites_nil_row]
    cases pos with
    | nil => rfl
    | cons p ps => simp at hlen1
  | cons t0 ts ih =>
    cases pos with
    | nil => simp at hlen1
    | cons p ps =>
      cases vals with
      | nil => simp at hlen2
      | cons v vs =>
        show (if t0 = tsIdx then textWrites tsIdx ts ps vs
          else (p, v) :: textWrites tsIdx ts ps vs) = (p, v) :: ps.zip vs
        rw [if_neg (h t0 (List.mem_cons_self ..))]
        rw [ih ps vs (fun t ht => h t (List.mem_cons_of_mem _ ht)) (by simpa using hlen1)
          (by simpa using hlen2)]

theorem padWrites_nil_row (padId : Int) (pos : List Nat) : padWrites padId [] pos = [] := rfl

theorem padWrites_snd_zero (padId : Int) (row : List Int) (pos : List Nat) (q : Nat × Int)
    (h : q ∈ padWrites padId row pos) : q.2 = 0 := by
  induction row generalizing pos with
  | nil => rw [padWrites_nil_row] at h; cases h
  | cons t0 ts ih =>
    cases pos with
    | nil => cases h
    | cons p ps =>
      rw [show padWrites padId (t0 :: ts) (p :: ps)
        = if t0 = padId then (p, 0) :: padWrites padId ts ps
          else padWrites padId ts ps from rfl] at h
      split at h
      · rcases List.mem_cons.1 h with heq | hmem
        · rw [heq]
        · exact ih ps hmem
      · exact ih ps h

theorem padWrites_mem_of_getElem (padId : Int) (row : List Int) (pos : List Nat)
    (c : Nat) (d : Nat) (h1 : row[c]? = some padId) (h3 : pos[c]? = some d) :
    (d, (0 : Int)) ∈ padWrites padId row pos := by
  induction row generalizing pos c with
  | nil => cases h1
  | cons t0 ts ih =>
    cases pos with
    | nil => cases h3
    | cons p ps =>
      cases c with
      | zero =>
        have ht : t0 = padId := by simpa using h1
        have hp : p = d := by simpa using h3
        show (d, (0 : Int)) ∈ if t0 = padId then (p, (0 : Int)) :: padWrites padId ts ps
          else padWrites padId ts ps
        rw [if_pos ht, hp]
        exact List.mem_cons_self ..
      | succ c =>
        have h1' : ts[c]? = some padId := by simpa using h1
        have h3' : ps[c]? = some d := by simpa using h3
        have hmem := ih ps c h1' h3'
        show (d, (0 : Int)) ∈ if t0 = padId then (p, (0 : Int)) :: padWrites padId ts ps
          else padWrites padId ts ps
        split
        · exact List.mem_cons_of_mem _ hmem
        · exact hmem

theorem padWrites_getElem_of_mem (padId : Int) (row : List Int) (pos : List Nat)
    (q : Nat × Int) (h : q ∈ padWrites padId row pos) :
    ∃ c : Nat, row[c]? = some padId ∧ pos[c]? = some q.1 := by
  induction row generalizing pos with
  | nil => rw [padWrites_nil_row] at h; cases h
  | cons t0 ts ih =>
    cases pos with
    | nil => cases h
    | cons p ps =>
      rw [show padWrites padId (t0 :: ts) (p :: ps)
        = if t0 = padId then (p, 0) :: padWrites padId ts ps
          else padWrites padId ts ps from rfl] at h
      split at h
      · rcases List.mem_cons.1 h with heq | hmem
        · refine ⟨0, by simp [*], ?_⟩
          rw [show q.1 = p from by rw [heq]]
          simp
        · rcases ih ps hmem with ⟨c, hc1, hc2⟩
          exact ⟨c + 1, by simpa using hc1, by simpa using hc2⟩
      · rcases ih ps h with ⟨c, hc1, hc2⟩
        exact ⟨c + 1, by simpa using hc1, by simpa using hc2⟩

theorem padWrites_no_pad (padId : Int) (row : List Int) (pos : List Nat)
    (h : ∀ t ∈ row, t ≠ padId) : padWrites padId row pos = [] := by
  induction row generalizing pos with
  | nil => exact padWrites_nil_row padId pos
  | cons t0 ts ih =>
    cases pos with
    | nil => rfl
    | cons p ps =>
      show (if t0 = padId then (p, (0 : Int)) :: padWrites padId ts ps
        else padWrites padId ts ps) = []
      rw [if_neg (h t0 (List.mem_cons_self ..))]
      exact ih ps (fun t ht => h t (List.mem_cons_of_mem _ ht))

theorem length_filterSlots (nbPad : Nat) (cnt : Nat) (l : List Bool) :
    (filterSlots nbPad cnt l).length = l.length := by
  induction l generalizing cnt with
  | nil => rfl
  | cons b bs ih => simp [filterSlots, ih]

theorem getElem?_filterSlots_false (nbPad : Nat) (cnt : Nat) (l : List Bool) (j : Nat)
    (h : l[j]? = some false) : (filterSlots nbPad cnt l)[j]? = some false := by
  induction l generalizing cnt j with
  | nil => cases h
  | cons b bs ih =>
    cases j with
    | zero =>
      have hb : b = false := by simpa using h
      subst hb
      simp [filterSlots]
    | succ j =>
      simpa [filterSlots] using ih (if b = true then cnt + 1 else cnt) j (by simpa using h)

theorem filterSlots_all_false (nbPad : Nat) (cnt : Nat) (l : List Bool)
    (h : ∀ b ∈ l, b = false) : filterSlots nbPad cnt l = l := by
  induction l generalizing cnt with
  | nil => rfl
  | cons b bs ih =>
    have hb : b = false := h b (List.mem_cons_self ..)
    subst hb
    have hstep : filterSlots nbPad cnt (false :: bs) = false :: filterSlots nbPad cnt bs := by
      simp [filterSlots]
    rw [hstep, ih _ (fun x hx => h x (List.mem_cons_of_mem _ hx))]

theorem candRow_at_dest (tsIdx : Int) (numPatches maxE : Nat) (lp : Bool) (row : List Int)
    (c : Nat) (t : Int) (d : Nat) (h1 : row[c]? = some t) (h2 : t ≠ tsIdx)
    (h3 : (rowPositions tsIdx numPatches maxE lp row)[c]? = some d) (hd : d < maxE) :
    (candRow tsIdx numPatches maxE lp row)[d]? = some false := by
  unfold candRow
  apply getElem?_writeAll_const
  · intro q hq
    rcases List.mem_map.1 hq with ⟨x, _, hx⟩
    rw [← hx]
  · rw [List.map_map]
    have : (Prod.fst ∘ fun d' => ((d' : Nat), false)) = id := rfl
    rw [this, List.map_id]
    exact textDests_mem_of_getElem tsIdx row _ c t d h1 h2 h3
  · rw [List.length_replicate]
    exact hd

theorem rowSlots_at_dest (tsIdx : Int) (numPatches maxE : Nat) (lp : Bool) (row : List Int)
    (c : Nat) (t : Int) (d : Nat) (h1 : row[c]? = some t) (h2 : t ≠ tsIdx)
    (h3 : (rowPositions tsIdx numPatches maxE lp row)[c]? = some d) (hd : d < maxE) :
    (rowSlots tsIdx numPatches maxE lp row)[d]? = some false := by
  unfold rowSlots
  exact getElem?_filterSlots_false _ 0 _ d
    (candRow_at_dest tsIdx numPatches maxE lp row c t d h1 h2 h3 hd)

theorem length_fillRow (s : List Bool) (es feats : List Int) :
    (fillRow s es feats).1.length = es.length := by
  induction s generalizing es feats with
  | nil =>
    cases es with
    | nil => rfl
    | cons e es' => rfl
  | cons b bs ih =>
    cases es with
    | nil => rfl
    | cons e es' =>
      by_cases hb : b
      · subst hb
        cases feats with
        | nil => simpa [fillRow] using ih es' []
        | cons f fs => simpa [fillRow] using ih es' fs
      · have hb' : b = false := by simpa using hb
        subst hb'
        simpa [fillRow] using ih es' feats

theorem getElem?_fillRow_false (s : List Bool) (es feats : List Int) (j : Nat)
    (h : s[j]? = some false) : (fillRow s es feats).1[j]? = es[j]? := by
  induction s generalizing es feats j with
  | nil => cases h
  | cons b bs ih =>
    cases es with
    | nil =>
      show (([] : List Int), feats).1[j]? = ([] : List Int)[j]?
      rfl
    | cons e es' =>
      cases j with
      | zero =>
        have hb : b = false := by simpa using h
        subst hb
        simp [fillRow]
      | succ j =>
        have h' : bs[j]? = some false := by simpa using h
        by_cases hb : b
        · subst hb
          cases feats with
          | nil => simpa [fillRow] using ih es' [] j h'
          | cons f fs => simpa [fillRow] using ih es' fs j h'
        · have hb' : b = false := by simpa using hb
          subst hb'
          simpa [fillRow] using ih es' feats j h'

theorem fillRow_all_false (s : List Bool) (es feats : List Int)
    (h : ∀ b ∈ s, b = false) : fillRow s es feats = (es, feats) := by
  induction s generalizing es feats with
  | nil =>
    cases es with
    | nil => rfl
    | cons e es' => rfl
  | cons b bs ih =>
    cases es with
    | nil => rfl
    | cons e es' =>
      have hb : b = false := h b (List.mem_cons_self ..)
      subst hb
      simp only [fillRow, if_neg Bool.false_ne_true]
      rw [ih es' feats (fun x hx => h x (List.mem_cons_of_mem _ hx))]

theorem getElem?_fillRows (ss : List (List Bool)) (rs : List (List Int)) (feats : List Int)
    (r : Nat) (x : List Int) (h : (fillRows ss rs feats)[r]? = some x) :
    ∃ s es fs, ss[r]? = some s ∧ rs[r]? = some es ∧ x = (fillRow s es fs).1 := by
  induction ss generalizing rs feats r with
  | nil => cases h
  | cons s ss' ih =>
    cases rs with
    | nil => cases h
    | cons es rs' =>
      cases r with
      | zero =>
        refine ⟨s, es, feats, by simp, by simp, ?_⟩
        have := (Option.some.inj (by simpa [fillRows] using h)).symm
        exact this
      | succ r =>
        rcases ih rs' (fillRow s es feats).2 r (by simpa [fillRows] using h)
          with ⟨s', es', fs', hs, hr, hx⟩
        exact ⟨s', es', fs', by simpa using hs, by simpa using hr, hx⟩

theorem fillRows_all_false (ss : List (List Bool)) (rs : List (List Int)) (feats : List Int)
    (h : ∀ s ∈ ss, ∀ b ∈ s, b = false) (hlen : ss.length = rs.length) :
    fillRows ss rs feats = rs := by
  induction ss generalizing rs feats with
  | nil =>
    cases rs with
    | nil => rfl
    | cons es rs' => simp at hlen
  | cons s ss' ih =>
    cases rs with
    | nil => simp at hlen
    | cons es rs' =>
      show ((fillRow s es feats).1 :: fillRows ss' rs' (fillRow s es feats).2) = es :: rs'
      rw [fillRow_all_false s es feats (h s (List.mem_cons_self ..))]
      rw [ih rs' feats (fun s' hs' => h s' (List.mem_cons_of_mem _ hs')) (by simpa using hlen)]

theorem getElem?_zipWith_some (f : α → β → γ) (as : List α) (bs : List β) (i : Nat)
    (a : α) (b : β) (ha : as[i]? = some a) (hb : bs[i]? = some b) :
    (List.zipWith f as bs)[i]? = some (f a b) := by
  induction as generalizing bs i with
  | nil => cases ha
  | cons x xs ih =>
    cases bs with
    | nil => cases hb
    | cons y ys =>
      cases i with
      | zero =>
        have hx : x = a := by simpa using ha
        have hy : y = b := by simpa using hb
        subst hx hy
        simp
      | succ i =>
        have := ih ys i (by simpa using ha) (by simpa using hb)
        simpa using this

theorem getElem?_zipWith_inv (f : α → β → γ) (as : List α) (bs : List β) (i : Nat) (x : γ)
    (h : (List.zipWith f as bs)[i]? = some x) :
    ∃ a b, as[i]? = some a ∧ bs[i]? = some b ∧ x = f a b := by
  induction as generalizing bs i with
  | nil => cases h
  | cons a0 as' ih =>
    cases bs with
    | nil => cases h
    | cons b0 bs' =>
      cases i with
      | zero =>
        refine ⟨a0, b0, by simp, by simp, ?_⟩
        have := Option.some.inj (by simpa using h)
        exact this.symm
      | succ i =>
        rcases ih bs' i (by simpa using h) with ⟨a, b, ha, hb, hx⟩
        exact ⟨a, b, by simpa using ha, by simpa using hb, hx⟩

theorem length_positionIdsRow (c : Nat) (m : List Nat) :
    (positionIdsRow c m).length = m.length := by
  induction m generalizing c with
  | nil => rfl
  | cons x xs ih => simp [positionIdsRow, ih]

theorem sum_eq_countP_of_le_one (l : List Nat) (h : ∀ x ∈ l, x ≤ 1) :
    l.sum = l.countP (fun x => x != 0) := by
  induction l with
  | nil => rfl
  | cons x xs ih =>
    rw [List.sum_cons, List.countP_cons, ih (fun y hy => h y (List.mem_cons_of_mem _ hy))]
    have hx := h x (List.mem_cons_self ..)
    interval_cases x <;> simp <;> omega

theorem getElem?_positionIdsRow (m : List Nat) : ∀ (c j v : Nat), (∀ x ∈ m, x ≤ 1) →
    m[j]? = some v →
    (positionIdsRow c m)[j]? = some (if v = 0 then 1 else
      ((c + (m.take (j + 1)).countP (fun x => x != 0) : Nat) : Int) - 1) := by
  induction m with
  | nil => intro c j v _ h; cases h
  | cons x xs ih =>
    intro c j v hb h
    cases j with
    | zero =>
      have hx : x = v := by simpa using h
      subst hx
      simp only [positionIdsRow, List.getElem?_cons_zero, List.take_succ_cons,
        List.take_zero, List.countP_cons, List.countP_nil]
      by_cases hv : x = 0
      · simp [hv]
      · have hx1 := hb x (List.mem_cons_self ..)
        have hx' : x = 1 := by omega
        subst hx'
        simp
    | succ j =>
      have h' : xs[j]? = some v := by simpa using h
      have hrec := ih (c + x) j v (fun y hy => hb y (List.mem_cons_of_mem _ hy)) h'
      simp only [positionIdsRow, List.getElem?_cons_succ, List.take_succ_cons,
        List.countP_cons]
      rw [hrec]
      by_cases hv : v = 0
      · simp [hv]
      · have hx1 := hb x (List.mem_cons_self ..)
        simp only [if_neg hv]
        congr 1
        congr 1
        interval_cases x <;> simp <;> omega

theorem orRow_bounded (m : List Nat) : ∀ (s : List Bool), (∀ x ∈ m, x ≤ 1) →
    ∀ x ∈ List.zipWith (fun mi b => mi ||| (if b then 1 else 0)) m s, x ≤ 1 := by
  induction m with
  | nil => intro s _ x hx; cases hx
  | cons m0 ms ih =>
    intro s h x hx
    cases s with
    | nil => cases hx
    | cons b bs =>
      rcases List.mem_cons.1 (by simpa using hx) with h1 | h1
      · have hm0 := h m0 (List.mem_cons_self ..)
        subst h1
        interval_cases m0 <;> cases b <;> simp
      · exact ih bs (fun y hy => h y (List.mem_cons_of_mem _ hy)) x h1

theorem merge_ok_inv (cfg : MergeConfig) (numPatches : Nat)
    (tsFeatures inputsEmbeds inputIds : List (List Int)) (attentionMask : List (List Nat))
    (labels : Option (List (List Int))) (res : MergeResult)
    (h : mergeInputIdsWithTimeSeriesFeatures cfg numPatches tsFeatures inputsEmbeds
      inputIds attentionMask labels = Except.ok res) :
    slotCountTotal cfg.timeSeriesTokenIndex numPatches
        (maxEmbedDim cfg.timeSeriesTokenIndex numPatches inputIds)
        (leftPadding cfg.padTokenId inputIds) inputIds = tsFeatures.length * numPatches ∧
    res.finalEmbedding = padZeroRows cfg.padTokenId cfg.timeSeriesTokenIndex numPatches
        (maxEmbedDim cfg.timeSeriesTokenIndex numPatches inputIds)
        (leftPadding cfg.padTokenId inputIds) inputIds
        (fillRows (slotRowsDef cfg.timeSeriesTokenIndex numPatches
            (maxEmbedDim cfg.timeSeriesTokenIndex numPatches inputIds)
            (leftPadding cfg.padTokenId inputIds) inputIds)
          (textScatterRows cfg.timeSeriesTokenIndex numPatches
            (maxEmbedDim cfg.timeSeriesTokenIndex numPatches inputIds)
            (leftPadding cfg.padTokenId inputIds) inputIds inputsEmbeds 0)
          tsFeatures.flatten) ∧
    res.finalAttentionMask = orMaskRows
        (textScatterRows cfg.timeSeriesTokenIndex numPatches
          (maxEmbedDim cfg.timeSeriesTokenIndex numPatches inputIds)
          (leftPadding cfg.padTokenId inputIds) inputIds attentionMask 0)
        (slotRowsDef cfg.timeSeriesTokenIndex numPatches
          (maxEmbedDim cfg.timeSeriesTokenIndex numPatches inputIds)
          (leftPadding cfg.padTokenId inputIds) inputIds) ∧
    res.finalLabels = labels.map (fun ls =>
        textScatterRows cfg.timeSeriesTokenIndex numPatches
          (maxEmbedDim cfg.timeSeriesTokenIndex numPatches inputIds)
          (leftPadding cfg.padTokenId inputIds) inputIds ls cfg.ignoreIndex) ∧
    res.positionIds = res.finalAttentionMask.map (positionIdsRow 0) := by
  unfold mergeInputIdsWithTimeSeriesFeatures at h
  dsimp only at h
  split at h
  · rename_i hcond
    have hres := Option.some.inj (congrArg (fun x => x.toOption) h)
    refine ⟨hcond, ?_, ?_, ?_, ?_⟩ <;> rw [← hres]
  · cases h

theorem textScatter_row_bounded (tsIdx : Int) (numPatches maxE : Nat) (lp : Bool)
    (inputIds : List (List Int)) (mask : List (List Nat))
    (hb : ∀ mrow ∈ mask, ∀ x ∈ mrow, x ≤ 1) (r : Nat) (mrow0 : List Nat)
    (h : (textScatterRows tsIdx numPatches maxE lp inputIds mask 0)[r]? = some mrow0) :
    ∀ x ∈ mrow0, x ≤ 1 := by
  rcases getElem?_zipWith_inv _ _ _ _ _ h with ⟨row, mrow, hr, hm, hx⟩
  subst hx
  apply forall_mem_writeAll
  · intro x hx
    rw [List.eq_of_mem_replicate hx]
    omega
  · intro q hq
    exact hb mrow (List.getElem?_mem hm) q.2 (textWrites_snd_mem _ _ _ _ q hq)

/-- Claim C1: the merge raises its fatal error exactly when the computed
time-series slot count differs from `N_instances * P_patches`; no fused
output exists in the error case (the result is `Except.error`), and every
input whose slot count matches completes with a fused result. -/
theorem claim_c1_merge_error_iff (cfg : MergeConfig) (numPatches : Nat)
    (tsFeatures inputsEmbeds inputIds : List (List Int)) (attentionMask : List (List Nat))
    (labels : Option (List (List Int))) :
    (mergeInputIdsWithTimeSeriesFeatures cfg numPatches tsFeatures inputsEmbeds
        inputIds attentionMask labels = Except.error ()
      ↔ slotCountTotal cfg.timeSeriesTokenIndex numPatches
          (maxEmbedDim cfg.timeSeriesTokenIndex numPatches inputIds)
          (leftPadding cfg.padTokenId inputIds) inputIds
          ≠ tsFeatures.length * numPatches) ∧
    ((∃ res, mergeInputIdsWithTimeSeriesFeatures cfg numPatches tsFeatures inputsEmbeds
        inputIds attentionMask labels = Except.ok res)
      ↔ slotCountTotal cfg.timeSeriesTokenIndex numPatches
          (maxEmbedDim cfg.timeSeriesTokenIndex numPatches inputIds)
          (leftPadding cfg.padTokenId inputIds) inputIds
          = tsFeatures.length * numPatches) := by
  unfold mergeInputIdsWithTimeSeriesFeatures
  dsimp only
  split
  · rename_i hcond
    refine ⟨⟨fun h => absurd h (by simp), fun h => absurd hcond h⟩, ?_, fun _ => ⟨_, rfl⟩⟩
    intro _
    exact hcond
  · rename_i hcond
    refine ⟨⟨fun _ => hcond, fun _ => rfl⟩, ⟨?_, fun h => absurd h hcond⟩⟩
    rintro ⟨res, hres⟩
    cases hres

/-- Concrete instantiation of `claim_c1_merge_error_iff` on the end-to-end
scenario (valid: 3 slots for 1 instance of 3 patches) showing the merge
completes exactly because the counts match. -/
theorem claim_c1_witness :
    (mergeInputIdsWithTimeSeriesFeatures ⟨9, 0, -100⟩ 3 [[71, 72, 73]]
        [[11, 12, 13, 14, 15], [21, 22, 23, 24, 25]] [[1, 2, 9, 3, 4], [5, 6, 7, 8, 0]]
        [[1, 1, 1, 1, 1], [1, 1, 1, 1, 0]] none = Except.error ()
      ↔ slotCountTotal 9 3 (maxEmbedDim 9 3 [[1, 2, 9, 3, 4], [5, 6, 7, 8, 0]])
          (leftPadding 0 [[1, 2, 9, 3, 4], [5, 6, 7, 8, 0]])
          [[1, 2, 9, 3, 4], [5, 6, 7, 8, 0]]
          ≠ ([[71, 72, 73]] : List (List Int)).length * 3) ∧
    ((∃ res, mergeInputIdsWithTimeSeriesFeatures ⟨9, 0, -100⟩ 3 [[71, 72, 73]]
        [[11, 12, 13, 14, 15], [21, 22, 23, 24, 25]] [[1, 2, 9, 3, 4], [5, 6, 7, 8, 0]]
        [[1, 1, 1, 1, 1], [1, 1, 1, 1, 0]] none = Except.ok res)
      ↔ slotCountTotal 9 3 (maxEmbedDim 9 3 [[1, 2, 9, 3, 4], [5, 6, 7, 8, 0]])
          (leftPadding 0 [[1, 2, 9, 3, 4], [5, 6, 7, 8, 0]])
          [[1, 2, 9, 3, 4], [5, 6, 7, 8, 0]]
          = ([[71, 72, 73]] : List (List Int)).length * 3) :=
  claim_c1_merge_error_iff ⟨9, 0, -100⟩ 3 [[71, 72, 73]]
    [[11, 12, 13, 14, 15], [21, 22, 23, 24, 25]] [[1, 2, 9, 3, 4], [5, 6, 7, 8, 0]]
    [[1, 1, 1, 1, 1], [1, 1, 1, 1, 0]] none

/-- Claim C2 counterexample: in the batch `[[5, 0]]` with pad id 0 the single
row ends in the pad id, yet the code does not treat the batch as left-padded
(`left_padding` is computed as `not torch.sum(input_ids[:, -1] == pad)`), so
"left-padding holds exactly when some row's last token id equals the pad
token id" is false here. -/
theorem claim_c2_counterexample :
    leftPadding 0 [[5, 0]] = false ∧ (([5, 0] : List Int).getLast? = some 0) := by
  constructor
  · rfl
  · rfl

/-- Claim C2 (amended): the batch is treated as left-padded if and only if
every row has a non-pad id in the last column; consequently an all-right-padded
batch (every row ending in the pad id) is not detected as left-padded, and an
all-left-padded batch (no row ending in the pad id) is. -/
theorem claim_c2_amended_left_padding_iff (padId : Int) (inputIds : List (List Int)) :
    leftPadding padId inputIds = true ↔ ∀ row ∈ inputIds, row.getLast? ≠ some padId := by
  unfold leftPadding
  simp [List.countP_eq_zero]

/-- Claim C8: the fused position ids equal, at each position with a nonzero
fused attention-mask value, the count of nonzero-mask positions up to and
including that position minus one, and equal exactly 1 where the fused mask
is zero.  The original attention mask is 0/1-valued as required by the data
model. -/
theorem claim_c8_position_ids (cfg : MergeConfig) (numPatches : Nat)
    (tsFeatures inputsEmbeds inputIds : List (List Int)) (attentionMask : List (List Nat))
    (labels : Option (List (List Int))) (res : MergeResult)
    (hmask : ∀ mrow ∈ attentionMask, ∀ x ∈ mrow, x ≤ 1)
    (hok : mergeInputIdsWithTimeSeriesFeatures cfg numPatches tsFeatures inputsEmbeds
      inputIds attentionMask labels = Except.ok res)
    (r : Nat) (prow : List Int) (mrow : List Nat) (j v : Nat)
    (hp : res.positionIds[r]? = some prow) (hm : res.finalAttentionMask[r]? = some mrow)
    (hv : mrow[j]? = some v) :
    prow[j]? = some (if v = 0 then 1 else
      (((mrow.take (j + 1)).countP (fun x => x != 0) : Nat) : Int) - 1) := by
  obtain ⟨-, -, hmask1, -, hpos⟩ := merge_ok_inv cfg numPatches tsFeatures inputsEmbeds
    inputIds attentionMask labels res hok
  rw [hpos, List.getElem?_map, hm] at hp
  have hprow : prow = positionIdsRow 0 mrow := (Option.some.inj hp).symm
  have hbound : ∀ x ∈ mrow, x ≤ 1 := by
    rw [hmask1] at hm
    rcases getElem?_zipWith_inv _ _ _ _ _ hm with ⟨m0row, srow, hm0, _, hx⟩
    subst hx
    refine orRow_bounded m0row srow ?_
    exact textScatter_row_bounded cfg.timeSeriesTokenIndex numPatches _ _ inputIds
      attentionMask hmask r m0row hm0
  rw [hprow, getElem?_positionIdsRow mrow 0 j v hbound hv]
  simp

/-- Concrete instantiation of `claim_c8_position_ids` on a left-padded batch
with one placeholder and two patches. -/
theorem claim_c8_witness :
    ([1, 0, 1, 2] : List Int)[1]? = some (if (1 : Nat) = 0 then 1 else
      (((([0, 1, 1, 1] : List Nat).take 2).countP (fun x => x != 0) : Nat) : Int) - 1) := by
  exact claim_c8_position_ids ⟨9, 0, -100⟩ 2 [[71, 72]] [[11, 12, 13]] [[0, 9, 2]]
    [[0, 1, 1]] none ⟨[[0, 71, 72, 13]], [[0, 1, 1, 1]], none, [[1, 0, 1, 2]]⟩
    (by decide) (by rfl) 0 [1, 0, 1, 2] [0, 1, 1, 1] 1 1 (by rfl) (by rfl) (by rfl)

theorem getElem?_textScatterRows_inv (tsIdx : Int) (numPatches maxE : Nat) (lp : Bool)
    (inputIds : List (List Int)) (vals : List (List α)) (init : α) (r : Nat) (x : List α)
    (h : (textScatterRows tsIdx numPatches maxE lp inputIds vals init)[r]? = some x) :
    ∃ row vrow, inputIds[r]? = some row ∧ vals[r]? = some vrow ∧
      x = writeAll (textWrites tsIdx row (rowPositions tsIdx numPatches maxE lp row) vrow)
        (List.replicate maxE init) := by
  unfold textScatterRows at h
  exact getElem?_zipWith_inv _ _ _ _ _ h

/-- Claim C10: when labels are supplied, every fused position that is not the
destination of an original non-placeholder token (every time-series slot and
every padding slot) carries the `ignore_index` sentinel in the returned
labels, so time-series positions are never supervised; when labels are
`none`, the returned labels are `none`. -/
theorem claim_c10_labels (cfg : MergeConfig) (numPatches : Nat)
    (tsFeatures inputsEmbeds inputIds : List (List Int)) (attentionMask : List (List Nat))
    (labels : Option (List (List Int))) (res : MergeResult)
    (hok : mergeInputIdsWithTimeSeriesFeatures cfg numPatches tsFeatures inputsEmbeds
      inputIds attentionMask labels = Except.ok res) :
    (labels = none → res.finalLabels = none) ∧
    (∀ (ls flrows : List (List Int)), labels = some ls → res.finalLabels = some flrows →
      ∀ (r : Nat) (idrow flrow : List Int),
      inputIds[r]? = some idrow → flrows[r]? = some flrow →
      ∀ j : Nat, j < flrow.length →
      j ∉ textDests cfg.timeSeriesTokenIndex idrow
        (rowPositions cfg.timeSeriesTokenIndex numPatches
          (maxEmbedDim cfg.timeSeriesTokenIndex numPatches inputIds)
          (leftPadding cfg.padTokenId inputIds) idrow) →
      flrow[j]? = some cfg.ignoreIndex) := by
  obtain ⟨-, -, -, hlab, -⟩ := merge_ok_inv cfg numPatches tsFeatures inputsEmbeds
    inputIds attentionMask labels res hok
  constructor
  · intro hnone
    rw [hlab, hnone]
    rfl
  · intro ls flrows hsome hfl r idrow flrow hid hflrow j hjlen hnot
    rw [hlab, hsome] at hfl
    have hflrows : flrows = textScatterRows cfg.timeSeriesTokenIndex numPatches
        (maxEmbedDim cfg.timeSeriesTokenIndex numPatches inputIds)
        (leftPadding cfg.padTokenId inputIds) inputIds ls cfg.ignoreIndex :=
      (Option.some.inj hfl).symm
    subst hflrows
    rcases getElem?_textScatterRows_inv _ _ _ _ _ _ _ _ _ hflrow
      with ⟨idrow', lrow, hid', hlrow, hx⟩
    have hidrow : idrow' = idrow := by
      rw [hid] at hid'
      exact (Option.some.inj hid').symm
    subst hidrow
    subst hx
    have hnotw : ∀ q ∈ textWrites cfg.timeSeriesTokenIndex idrow'
        (rowPositions cfg.timeSeriesTokenIndex numPatches
          (maxEmbedDim cfg.timeSeriesTokenIndex numPatches inputIds)
          (leftPadding cfg.padTokenId inputIds) idrow') lrow, q.1 ≠ j := by
      intro q hq hq1
      rcases textWrites_getElem_of_mem _ _ _ _ q hq with ⟨c, t, hc1, hc2, hc3, _⟩
      exact hnot (hq1 ▸ textDests_mem_of_getElem _ _ _ c t q.1 hc1 hc2 hc3)
    rw [getElem?_writeAll_not_mem _ _ _ hnotw]
    have hjm : j < maxEmbedDim cfg.timeSeriesTokenIndex numPatches inputIds := by
      rw [length_writeAll, List.length_replicate] at hjlen
      exact hjlen
    simp [List.getElem?_replicate, hjm]

/-- Concrete instantiation of `claim_c10_labels`: in the spec's end-to-end
scenario the fused labels carry the ignore sentinel at a time-series slot
and at a trailing padding slot, and a label-free call returns none. -/
theorem claim_c10_witness :
    ([101, 102, -100, -100, -100, 104, 105] : List Int)[3]? = some (-100 : Int) := by
  have h := claim_c10_labels ⟨9, 0, -100⟩ 3 [[71, 72, 73]]
    [[11, 12, 13, 14, 15], [21, 22, 23, 24, 25]]
    [[1, 2, 9, 3, 4], [5, 6, 7, 8, 0]]
    [[1, 1, 1, 1, 1], [1, 1, 1, 1, 0]]
    (some [[101, 102, 103, 104, 105], [201, 202, 203, 204, 205]])
    ⟨[[11, 12, 71, 72, 73, 14, 15], [21, 22, 23, 24, 0, 0, 0]],
      [[1, 1, 1, 1, 1, 1, 1], [1, 1, 1, 1, 0, 0, 0]],
      some [[101, 102, -100, -100, -100, 104, 105], [201, 202, 203, 204, 205, -100, -100]],
      [[0, 1, 2, 3, 4, 5, 6], [0, 1, 2, 3, 1, 1, 1]]⟩ (by rfl)
  exact h.2 [[101, 102, 103, 104, 105], [201, 202, 203, 204, 205]]
    [[101, 102, -100, -100, -100, 104, 105], [201, 202, 203, 204, 205, -100, -100]]
    rfl rfl 0 [1, 2, 9, 3, 4] [101, 102, -100, -100, -100, 104, 105] rfl rfl
    3 (by decide) (by decide)

theorem foldl_max_mul (l : List Nat) (m : Nat) : ∀ b : Nat,
    (l.foldl max b) * m = (l.map (fun x => x * m)).foldl max (b * m) := by
  induction l with
  | nil => intro b; rfl
  | cons x xs ih =>
    intro b
    rw [List.foldl_cons, List.map_cons, List.foldl_cons, ih (max b x)]
    congr 1
    rcases Nat.le_total b x with h | h
    · rw [Nat.max_eq_right h, Nat.max_eq_right (Nat.mul_le_mul_right m h)]
    · rw [Nat.max_eq_left h, Nat.max_eq_left (Nat.mul_le_mul_right m h)]

theorem getElem?_slotRowsDef_inv (tsIdx : Int) (numPatches maxE : Nat) (lp : Bool)
    (inputIds : List (List Int)) (r : Nat) (srow : List Bool)
    (h : (slotRowsDef tsIdx numPatches maxE lp inputIds)[r]? = some srow) :
    ∃ row, inputIds[r]? = some row ∧ srow = rowSlots tsIdx numPatches maxE lp row := by
  unfold slotRowsDef at h
  rw [List.getElem?_map] at h
  rcases Option.map_eq_some'.1 h with ⟨row, hrow, hx⟩
  exact ⟨row, hrow, hx.symm⟩

theorem length_rowSlots (tsIdx : Int) (numPatches maxE : Nat) (lp : Bool) (row : List Int) :
    (rowSlots tsIdx numPatches maxE lp row).length = maxE := by
  unfold rowSlots candRow
  rw [length_filterSlots, length_writeAll, List.length_replicate]

/-- Claim C5: the fused sequence length equals the maximum over batch rows of
`placeholder_count_in_row * (P_patches - 1)` plus the original sequence
length, and every row of every fused tensor returned by the merge has
exactly that length. -/
theorem claim_c5_fused_length (cfg : MergeConfig) (numPatches : Nat)
    (tsFeatures inputsEmbeds inputIds : List (List Int)) (attentionMask : List (List Nat))
    (labels : Option (List (List Int))) :
    maxEmbedDim cfg.timeSeriesTokenIndex numPatches inputIds
      = (inputIds.map (fun row =>
          (row.countP (fun t => t == cfg.timeSeriesTokenIndex)) * (numPatches - 1))).foldl
            max 0 + seqLength inputIds ∧
    (∀ res, mergeInputIdsWithTimeSeriesFeatures cfg numPatches tsFeatures inputsEmbeds
        inputIds attentionMask labels = Except.ok res →
      (∀ erow ∈ res.finalEmbedding,
        erow.length = maxEmbedDim cfg.timeSeriesTokenIndex numPatches inputIds) ∧
      (∀ mrow ∈ res.finalAttentionMask,
        mrow.length = maxEmbedDim cfg.timeSeriesTokenIndex numPatches inputIds) ∧
      (∀ ls, res.finalLabels = some ls → ∀ lrow ∈ ls,
        lrow.length = maxEmbedDim cfg.timeSeriesTokenIndex numPatches inputIds) ∧
      (∀ prow ∈ res.positionIds,
        prow.length = maxEmbedDim cfg.timeSeriesTokenIndex numPatches inputIds)) := by
  constructor
  · unfold maxEmbedDim maxNumSpecial
    rw [foldl_max_mul _ _ 0, Nat.zero_mul, List.map_map]
    rfl
  · intro res hok
    obtain ⟨-, hemb, hmask, hlab, hpos⟩ := merge_ok_inv cfg numPatches tsFeatures
      inputsEmbeds inputIds attentionMask labels res hok
    set maxE := maxEmbedDim cfg.timeSeriesTokenIndex numPatches inputIds with hmaxE
    have hmaskLen : ∀ mrow ∈ res.finalAttentionMask, mrow.length = maxE := by
      intro mrow hmem
      rcases List.mem_iff_getElem?.1 hmem with ⟨r, hr⟩
      rw [hmask] at hr
      unfold orMaskRows at hr
      rcases getElem?_zipWith_inv _ _ _ _ _ hr with ⟨m0row, srow, hm0, hs, hx⟩
      subst hx
      rcases getElem?_textScatterRows_inv _ _ _ _ _ _ _ _ _ hm0
        with ⟨row, vrow, _, _, hx0⟩
      rcases getElem?_slotRowsDef_inv _ _ _ _ _ _ _ hs with ⟨row', _, hx1⟩
      rw [List.length_zipWith, hx0, hx1, length_writeAll, List.length_replicate,
        length_rowSlots]
      exact Nat.min_self maxE
    refine ⟨?_, hmaskLen, ?_, ?_⟩
    · intro erow hmem
      rcases List.mem_iff_getElem?.1 hmem with ⟨r, hr⟩
      rw [hemb] at hr
      unfold padZeroRows at hr
      rcases getElem?_zipWith_inv _ _ _ _ _ hr with ⟨row, e1row, hrow, he1, hx⟩
      subst hx
      rw [length_writeAll]
      rcases getElem?_fillRows _ _ _ _ _ he1 with ⟨srow, e0row, fs, _, he0, hx1⟩
      rw [hx1, length_fillRow]
      rcases getElem?_textScatterRows_inv _ _ _ _ _ _ _ _ _ he0
        with ⟨row', vrow, _, _, hx0⟩
      rw [hx0, length_writeAll, List.length_replicate]
    · intro ls hls lrow hmem
      rw [hlab] at hls
      rcases Option.map_eq_some'.1 hls with ⟨ls0, _, hx⟩
      subst hx
      rcases List.mem_iff_getElem?.1 hmem with ⟨r, hr⟩
      rcases getElem?_textScatterRows_inv _ _ _ _ _ _ _ _ _ hr
        with ⟨row, vrow, _, _, hx0⟩
      rw [hx0, length_writeAll, List.length_replicate]
    · intro prow hmem
      rw [hpos] at hmem
      rcases List.mem_map.1 hmem with ⟨mrow, hmrow, hx⟩
      rw [← hx, length_positionIdsRow]
      exact hmaskLen mrow hmrow

/-- Concrete instantiation of `claim_c5_fused_length` on the spec's
end-to-end scenario: batch of 2 rows, length 5, one placeholder in row 0,
3 patches; the fused length is 5 + 1*(3-1) = 7 for every output row. -/
theorem claim_c5_witness :
    maxEmbedDim 9 3 [[1, 2, 9, 3, 4], [5, 6, 7, 8, 0]]
      = ([[1, 2, 9, 3, 4], [(5 : Int), 6, 7, 8, 0]].map (fun row =>
          (row.countP (fun t => t == (9 : Int))) * (3 - 1))).foldl max 0 + 5 ∧
    ([11, 12, 71, 72, 73, 14, 15] : List Int).length
      = maxEmbedDim 9 3 [[1, 2, 9, 3, 4], [5, 6, 7, 8, 0]] := by
  have h := claim_c5_fused_length ⟨9, 0, -100⟩ 3 [[71, 72, 73]]
    [[11, 12, 13, 14, 15], [21, 22, 23, 24, 25]]
    [[1, 2, 9, 3, 4], [5, 6, 7, 8, 0]]
    [[1, 1, 1, 1, 1], [1, 1, 1, 1, 0]] none
  refine ⟨by simpa [seqLength] using h.1, ?_⟩
  have h2 := (h.2 ⟨[[11, 12, 71, 72, 73, 14, 15], [21, 22, 23, 24, 0, 0, 0]],
      [[1, 1, 1, 1, 1, 1, 1], [1, 1, 1, 1, 0, 0, 0]], none,
      [[0, 1, 2, 3, 4, 5, 6], [0, 1, 2, 3, 1, 1, 1]]⟩ (by rfl)).1
  exact h2 [11, 12, 71, 72, 73, 14, 15] (by decide)

theorem cumsum_replicate_one (n : Nat) : ∀ a, cumsum a (List.replicate n 1) = List.range' (a + 1) n := by
  induction n with
  | zero => intro a; rfl
  | succ n ih =>
    intro a
    show (a + 1) :: cumsum (a + 1) (List.replicate n 1) = List.range' (a + 1) (n + 1)
    rw [ih (a + 1), List.range'_succ]

theorem map_sub_one_range' (n : Nat) : ∀ a, (List.range' (a + 1) n).map (fun x => x - 1) = List.range' a n := by
  induction n with
  | zero => intro a; rfl
  | succ n ih =>
    intro a
    rw [List.range'_succ, List.map_cons, ih (a + 1), List.range'_succ]
    congr 1

theorem newTokenPositionsRow_no_special (numPatches : Nat) (tsIdx : Int) (row : List Int)
    (h : ∀ t ∈ row, t ≠ tsIdx) :
    newTokenPositionsRow numPatches tsIdx row = List.range row.length := by
  unfold newTokenPositionsRow
  have hw : row.map (tokenWeight numPatches tsIdx) = List.replicate row.length 1 := by
    rw [show row.map (tokenWeight numPatches tsIdx) = row.map (fun _ => 1) from
      List.map_congr_left (fun t ht => by simp [tokenWeight, h t ht])]
    exact List.map_const' row 1
  rw [hw, cumsum_replicate_one row.length 0, map_sub_one_range' row.length 0,
    List.range_eq_range']

theorem foldl_max_replicate_zero (n : Nat) : (List.replicate n 0).foldl max 0 = 0 := by
  induction n with
  | zero => rfl
  | succ n ih =>
    rw [List.replicate_succ, List.foldl_cons]
    exact ih

theorem maxNumSpecial_no_special (tsIdx : Int) (inputIds : List (List Int))
    (h : ∀ row ∈ inputIds, ∀ t ∈ row, t ≠ tsIdx) : maxNumSpecial tsIdx inputIds = 0 := by
  unfold maxNumSpecial
  rw [show inputIds.map (numSpecialRow tsIdx) = inputIds.map (fun _ => 0) from
    List.map_congr_left (fun row hrow => by
      unfold numSpecialRow
      rw [List.countP_eq_zero]
      intro t ht
      simp [h row hrow t ht])]
  rw [List.map_const']
  exact foldl_max_replicate_zero inputIds.length

theorem maxEmbedDim_no_special (tsIdx : Int) (numPatches : Nat) (inputIds : List (List Int))
    (h : ∀ row ∈ inputIds, ∀ t ∈ row, t ≠ tsIdx) :
    maxEmbedDim tsIdx numPatches inputIds = seqLength inputIds := by
  unfold maxEmbedDim
  rw [maxNumSpecial_no_special tsIdx inputIds h, Nat.zero_mul, Nat.zero_add]

theorem getLastD_range (n : Nat) : (List.range n).getLastD 0 = n - 1 := by
  cases n with
  | zero => rfl
  | succ n =>
    rw [List.getLastD_eq_getLast?, List.getLast?_eq_getElem?, List.length_range]
    have h1 : n + 1 - 1 = n := rfl
    rw [h1, List.getElem?_range (by omega)]
    rfl

theorem rowPositions_no_special (tsIdx : Int) (numPatches : Nat) (lp : Bool)
    (row : List Int) (h : ∀ t ∈ row, t ≠ tsIdx) :
    rowPositions tsIdx numPatches row.length lp row = List.range row.length := by
  unfold rowPositions rowNbPad
  rw [newTokenPositionsRow_no_special numPatches tsIdx row h]
  cases lp with
  | false => simp
  | true =>
    simp only [if_pos rfl]
    rw [getLastD_range]
    have : row.length - 1 - (row.length - 1) = 0 := by omega
    rw [this]
    simp

theorem scatter_identity_row (tsIdx : Int) (row : List Int) (vrow : List α) (init : α)
    (hns : ∀ t ∈ row, t ≠ tsIdx) (hlen : vrow.length = row.length) :
    writeAll (textWrites tsIdx row (List.range row.length) vrow)
      (List.replicate row.length init) = vrow := by
  rw [textWrites_no_special tsIdx row _ vrow hns (by rw [List.length_range]) hlen.symm]
  rw [show row.length = vrow.length from hlen.symm]
  exact writeAll_zip_range vrow init

theorem candRow_no_special (tsIdx : Int) (numPatches : Nat) (lp : Bool) (row : List Int)
    (hns : ∀ t ∈ row, t ≠ tsIdx) :
    candRow tsIdx numPatches row.length lp row = List.replicate row.length false := by
  unfold candRow
  rw [rowPositions_no_special tsIdx numPatches lp row hns]
  rw [textDests_no_special tsIdx row _ hns (by rw [List.length_range])]
  exact writeAll_range_const row.length false _ (List.length_replicate ..)

theorem rowSlots_no_special (tsIdx : Int) (numPatches : Nat) (lp : Bool) (row : List Int)
    (hns : ∀ t ∈ row, t ≠ tsIdx) :
    rowSlots tsIdx numPatches row.length lp row = List.replicate row.length false := by
  unfold rowSlots
  rw [candRow_no_special tsIdx numPatches lp row hns]
  exact filterSlots_all_false _ 0 _ (fun b hb => List.eq_of_mem_replicate hb)

theorem countP_id_replicate_false (n : Nat) : (List.replicate n false).countP id = 0 := by
  rw [List.countP_eq_zero]
  intro b hb
  rw [List.eq_of_mem_replicate hb]
  simp

theorem padWrites_map_succ (padId : Int) (row : List Int) : ∀ ps : List Nat,
    padWrites padId row (ps.map (fun x => x + 1))
      = (padWrites padId row ps).map (fun q => (q.1 + 1, q.2)) := by
  induction row with
  | nil => intro ps; rw [padWrites_nil_row, padWrites_nil_row]; rfl
  | cons t ts ih =>
    intro ps
    cases ps with
    | nil => rfl
    | cons p ps' =>
      show (if t = padId then (p + 1, (0 : Int)) :: padWrites padId ts (ps'.map (fun x => x + 1))
        else padWrites padId ts (ps'.map (fun x => x + 1)))
        = ((if t = padId then (p, (0 : Int)) :: padWrites padId ts ps'
          else padWrites padId ts ps')).map (fun q => (q.1 + 1, q.2))
      split
      · rw [List.map_cons, ih ps']
      · rw [ih ps']

theorem padZero_writeAll (padId : Int) (row : List Int) : ∀ l : List Int,
    l.length = row.length →
    writeAll (padWrites padId row (List.range row.length)) l
      = List.zipWith (fun t e => if t = padId then 0 else e) row l := by
  induction row with
  | nil =>
    intro l hlen
    rw [List.length_eq_zero.1 hlen]
    rfl
  | cons t ts ih =>
    intro l hlen
    cases l with
    | nil => simp at hlen
    | cons e es =>
      rw [List.length_cons, List.range_succ_eq_map]
      show writeAll (padWrites padId (t :: ts) (0 :: (List.range ts.length).map (fun x => x + 1)))
        (e :: es) = _
      rw [show padWrites padId (t :: ts) (0 :: (List.range ts.length).map (fun x => x + 1))
        = if t = padId then (0, (0 : Int)) :: padWrites padId ts
            ((List.range ts.length).map (fun x => x + 1))
          else padWrites padId ts ((List.range ts.length).map (fun x => x + 1)) from rfl]
      rw [padWrites_map_succ]
      split
      · rename_i hpad
        rw [writeAll_cons]
        show writeAll _ ((0 : Int) :: es) = _
        rw [writeAll_map_succ, ih es (by simpa using hlen), List.zipWith_cons_cons,
          if_pos hpad]
      · rename_i hpad
        rw [writeAll_map_succ, ih es (by simpa using hlen), List.zipWith_cons_cons,
          if_neg hpad]

theorem orRow_false_replicate (m : List Nat) :
    List.zipWith (fun mi b => mi ||| (if b then 1 else 0)) m
      (List.replicate m.length false) = m := by
  induction m with
  | nil => rfl
  | cons m0 ms ih =>
    rw [List.length_cons, List.replicate_succ, List.zipWith_cons_cons, ih]
    congr 1
    simp [Nat.or_zero]

theorem zipWith_eq_right (f : α → β → β) (as : List α) : ∀ bs : List β,
    as.length = bs.length → (∀ a ∈ as, ∀ b ∈ bs, f a b = b) →
    List.zipWith f as bs = bs := by
  induction as with
  | nil =>
    intro bs hlen _
    cases bs with
    | nil => rfl
    | cons b bs' => simp at hlen
  | cons a as' ih =>
    intro bs hlen h
    cases bs with
    | nil => simp at hlen
    | cons b bs' =>
      rw [List.zipWith_cons_cons, h a (List.mem_cons_self ..) b (List.mem_cons_self ..),
        ih bs' (by simpa using hlen) (fun a' ha' b' hb' =>
          h a' (List.mem_cons_of_mem _ ha') b' (List.mem_cons_of_mem _ hb'))]

theorem zipWith_congr_mem (f g : α → β → γ) (as : List α) : ∀ bs : List β,
    (∀ a ∈ as, ∀ b ∈ bs, f a b = g a b) →
    List.zipWith f as bs = List.zipWith g as bs := by
  induction as with
  | nil => intro bs _; rfl
  | cons a as' ih =>
    intro bs h
    cases bs with
    | nil => rfl
    | cons b bs' =>
      rw [List.zipWith_cons_cons, List.zipWith_cons_cons,
        h a (List.mem_cons_self ..) b (List.mem_cons_self ..),
        ih bs' (fun a' ha' b' hb' =>
          h a' (List.mem_cons_of_mem _ ha') b' (List.mem_cons_of_mem _ hb'))]

theorem zipWith_zipWith_same (f : α → γ → δ) (g : α → β → γ) (as : List α) :
    ∀ bs : List β, List.zipWith f as (List.zipWith g as bs)
      = List.zipWith (fun a b => f a (g a b)) as bs := by
  induction as with
  | nil => intro bs; rfl
  | cons a as' ih =>
    intro bs
    cases bs with
    | nil => rfl
    | cons b bs' => rw [List.zipWith_cons_cons, List.zipWith_cons_cons,
        List.zipWith_cons_cons, ih bs']

theorem zipWith_const_left (as : List α) : ∀ bs : List β, as.length = bs.length →
    List.zipWith (fun a _ => a) as bs = as := by
  induction as with
  | nil => intro bs _; rfl
  | cons a as' ih =>
    intro bs hlen
    cases bs with
    | nil => simp at hlen
    | cons b bs' => rw [List.zipWith_cons_cons, ih bs' (by simpa using hlen)]

theorem merge_ok_of_count (cfg : MergeConfig) (numPatches : Nat)
    (tsFeatures inputsEmbeds inputIds : List (List Int)) (attentionMask : List (List Nat))
    (labels : Option (List (List Int)))
    (hcount : slotCountTotal cfg.timeSeriesTokenIndex numPatches
      (maxEmbedDim cfg.timeSeriesTokenIndex numPatches inputIds)
      (leftPadding cfg.padTokenId inputIds) inputIds = tsFeatures.length * numPatches) :
    mergeInputIdsWithTimeSeriesFeatures cfg numPatches tsFeatures inputsEmbeds inputIds
      attentionMask labels = Except.ok
      { finalEmbedding := padZeroRows cfg.padTokenId cfg.timeSeriesTokenIndex numPatches
          (maxEmbedDim cfg.timeSeriesTokenIndex numPatches inputIds)
          (leftPadding cfg.padTokenId inputIds) inputIds
          (fillRows (slotRowsDef cfg.timeSeriesTokenIndex numPatches
              (maxEmbedDim cfg.timeSeriesTokenIndex numPatches inputIds)
              (leftPadding cfg.padTokenId inputIds) inputIds)
            (textScatterRows cfg.timeSeriesTokenIndex numPatches
              (maxEmbedDim cfg.timeSeriesTokenIndex numPatches inputIds)
              (leftPadding cfg.padTokenId inputIds) inputIds inputsEmbeds 0)
            tsFeatures.flatten)
        finalAttentionMask := orMaskRows
          (textScatterRows cfg.timeSeriesTokenIndex numPatches
            (maxEmbedDim cfg.timeSeriesTokenIndex numPatches inputIds)
            (leftPadding cfg.padTokenId inputIds) inputIds attentionMask 0)
          (slotRowsDef cfg.timeSeriesTokenIndex numPatches
            (maxEmbedDim cfg.timeSeriesTokenIndex numPatches inputIds)
            (leftPadding cfg.padTokenId inputIds) inputIds)
        finalLabels := labels.map (fun ls =>
          textScatterRows cfg.timeSeriesTokenIndex numPatches
            (maxEmbedDim cfg.timeSeriesTokenIndex numPatches inputIds)
            (leftPadding cfg.padTokenId inputIds) inputIds ls cfg.ignoreIndex)
        positionIds := (orMaskRows
          (textScatterRows cfg.timeSeriesTokenIndex numPatches
            (maxEmbedDim cfg.timeSeriesTokenIndex numPatches inputIds)
            (leftPadding cfg.padTokenId inputIds) inputIds attentionMask 0)
          (slotRowsDef cfg.timeSeriesTokenIndex numPatches
            (maxEmbedDim cfg.timeSeriesTokenIndex numPatches inputIds)
            (leftPadding cfg.padTokenId inputIds) inputIds)).map (positionIdsRow 0) } := by
  unfold mergeInputIdsWithTimeSeriesFeatures
  dsimp only
  rw [if_pos hcount]

/-- Claim C3 counterexample: for the zero-placeholder batch `[[5, 0]]` with
pad id 0 and nonzero pad embedding, the merge zeroes the embedding at the
pad position (step 6 of the merge), so the fused embeddings are not
bit-for-bit equal to the input embeddings at pad-token positions. -/
theorem claim_c3_counterexample :
    mergeInputIdsWithTimeSeriesFeatures ⟨7, 0, -100⟩ 1 [] [[1, 3]] [[5, 0]] [[1, 0]] none
      = Except.ok ⟨[[1, 0]], [[1, 0]], none, [[0, 1]]⟩ ∧
    ([[1, 0]] : List (List Int)) ≠ [[1, 3]] := by
  constructor
  · rfl
  · decide

/-- Claim C3 (amended): for a token batch containing zero placeholder tokens
and an empty feature batch, the merge succeeds and returns the attention
mask and labels exactly unchanged, and the embeddings unchanged at every
non-pad position, while the embedding at each original pad-token position is
zeroed. -/
theorem claim_c3_amended_zero_placeholder (cfg : MergeConfig) (numPatches : Nat)
    (inputsEmbeds inputIds : List (List Int)) (attentionMask : List (List Nat))
    (labels : Option (List (List Int)))
    (hns : ∀ row ∈ inputIds, ∀ t ∈ row, t ≠ cfg.timeSeriesTokenIndex)
    (hidlen : ∀ row ∈ inputIds, row.length = seqLength inputIds)
    (hembN : inputsEmbeds.length = inputIds.length)
    (hembL : ∀ erow ∈ inputsEmbeds, erow.length = seqLength inputIds)
    (hmaskN : attentionMask.length = inputIds.length)
    (hmaskL : ∀ mrow ∈ attentionMask, mrow.length = seqLength inputIds)
    (hlabN : ∀ ls, labels = some ls → ls.length = inputIds.length)
    (hlabL : ∀ ls, labels = some ls → ∀ lrow ∈ ls, lrow.length = seqLength inputIds) :
    ∃ res, mergeInputIdsWithTimeSeriesFeatures cfg numPatches [] inputsEmbeds inputIds
        attentionMask labels = Except.ok res ∧
      res.finalAttentionMask = attentionMask ∧
      res.finalLabels = labels ∧
      res.finalEmbedding = List.zipWith (fun idrow erow =>
        List.zipWith (fun t e => if t = cfg.padTokenId then 0 else e) idrow erow)
        inputIds inputsEmbeds := by
  set tsIdx := cfg.timeSeriesTokenIndex with htsIdx
  set L := seqLength inputIds with hL
  set lp := leftPadding cfg.padTokenId inputIds with hlp
  have hmaxE : maxEmbedDim tsIdx numPatches inputIds = L :=
    maxEmbedDim_no_special tsIdx numPatches inputIds hns
  have hslots : slotRowsDef tsIdx numPatches (maxEmbedDim tsIdx numPatches inputIds) lp
      inputIds = inputIds.map (fun _ => List.replicate L false) := by
    unfold slotRowsDef
    refine List.map_congr_left (fun row hrow => ?_)
    rw [hmaxE, ← hidlen row hrow]
    exact rowSlots_no_special tsIdx numPatches lp row (hns row hrow)
  have hcount : slotCountTotal tsIdx numPatches (maxEmbedDim tsIdx numPatches inputIds) lp
      inputIds = ([] : List (List Int)).length * numPatches := by
    unfold slotCountTotal
    rw [hslots, List.length_nil, Nat.zero_mul]
    apply List.sum_eq_zero
    intro x hx
    rcases List.mem_map.1 hx with ⟨s, hs, hxs⟩
    rcases List.mem_map.1 hs with ⟨row, _, hrow⟩
    rw [← hxs, ← hrow]
    exact countP_id_replicate_false L
  have hemb0 : textScatterRows tsIdx numPatches (maxEmbedDim tsIdx numPatches inputIds) lp
      inputIds inputsEmbeds (0 : Int) = inputsEmbeds := by
    unfold textScatterRows
    refine zipWith_eq_right _ inputIds inputsEmbeds (hembN.symm) ?_
    intro row hrow erow herow
    rw [hmaxE, ← hidlen row hrow,
      rowPositions_no_special tsIdx numPatches lp row (hns row hrow)]
    exact scatter_identity_row tsIdx row erow 0 (hns row hrow)
      (by rw [hembL erow herow, hidlen row hrow])
  have hmask0 : textScatterRows tsIdx numPatches (maxEmbedDim tsIdx numPatches inputIds) lp
      inputIds attentionMask (0 : Nat) = attentionMask := by
    unfold textScatterRows
    refine zipWith_eq_right _ inputIds attentionMask (hmaskN.symm) ?_
    intro row hrow mrow hmrow
    rw [hmaxE, ← hidlen row hrow,
      rowPositions_no_special tsIdx numPatches lp row (hns row hrow)]
    exact scatter_identity_row tsIdx row mrow 0 (hns row hrow)
      (by rw [hmaskL mrow hmrow, hidlen row hrow])
  have hfill : fillRows (slotRowsDef tsIdx numPatches
      (maxEmbedDim tsIdx numPatches inputIds) lp inputIds)
      (textScatterRows tsIdx numPatches (maxEmbedDim tsIdx numPatches inputIds) lp
        inputIds inputsEmbeds 0) (([] : List (List Int)).flatten)
      = inputsEmbeds := by
    rw [hemb0, hslots]
    refine fillRows_all_false _ _ _ ?_ (by rw [List.length_map, hembN])
    intro s hs b hb
    rcases List.mem_map.1 hs with ⟨row, _, hrow⟩
    rw [← hrow] at hb
    exact List.eq_of_mem_replicate hb
  have hmask1 : orMaskRows (textScatterRows tsIdx numPatches
      (maxEmbedDim tsIdx numPatches inputIds) lp inputIds attentionMask 0)
      (slotRowsDef tsIdx numPatches (maxEmbedDim tsIdx numPatches inputIds) lp inputIds)
      = attentionMask := by
    rw [hmask0, hslots]
    unfold orMaskRows
    rw [List.zipWith_map_right]
    rw [zipWith_congr_mem _ (fun (m : List Nat) (_ : List Int) => m) attentionMask inputIds
      (fun mrow hm row hrow => by
        rw [show List.replicate L false = List.replicate mrow.length false from by
          rw [hmaskL mrow hm]]
        exact orRow_false_replicate mrow)]
    exact zipWith_const_left attentionMask inputIds hmaskN
  have hlabels : labels.map (fun ls =>
      textScatterRows tsIdx numPatches (maxEmbedDim tsIdx numPatches inputIds) lp
        inputIds ls cfg.ignoreIndex) = labels := by
    cases labels with
    | none => rfl
    | some ls =>
      rw [Option.map_some']
      congr 1
      unfold textScatterRows
      refine zipWith_eq_right _ inputIds ls ((hlabN ls rfl).symm) ?_
      intro row hrow lrow hlrow
      rw [hmaxE, ← hidlen row hrow,
        rowPositions_no_special tsIdx numPatches lp row (hns row hrow)]
      refine scatter_identity_row tsIdx row lrow cfg.ignoreIndex (hns row hrow) ?_
      rw [hlabL ls rfl lrow hlrow, hidlen row hrow]
  have hpad : padZeroRows cfg.padTokenId tsIdx numPatches
      (maxEmbedDim tsIdx numPatches inputIds) lp inputIds inputsEmbeds
      = List.zipWith (fun idrow erow =>
        List.zipWith (fun t e => if t = cfg.padTokenId then 0 else e) idrow erow)
        inputIds inputsEmbeds := by
    unfold padZeroRows
    refine zipWith_congr_mem _ _ inputIds inputsEmbeds ?_
    intro row hrow erow herow
    rw [hmaxE, ← hidlen row hrow,
      rowPositions_no_special tsIdx numPatches lp row (hns row hrow)]
    exact padZero_writeAll cfg.padTokenId row erow
      (by rw [hembL erow herow, hidlen row hrow])
  refine ⟨_, merge_ok_of_count cfg numPatches [] inputsEmbeds inputIds attentionMask
    labels hcount, hmask1, hlabels, ?_⟩
  show padZeroRows cfg.padTokenId tsIdx numPatches (maxEmbedDim tsIdx numPatches inputIds)
    lp inputIds (fillRows _ _ _) = _
  rw [hfill]
  exact hpad

/-- Concrete instantiation of `claim_c3_amended_zero_placeholder` on the
batch `[[5, 0]]` with pad id 0: mask and labels come back unchanged, and the
embeddings come back with the pad position zeroed. -/
theorem claim_c3_witness :
    ∃ res, mergeInputIdsWithTimeSeriesFeatures ⟨7, 0, -100⟩ 1 [] [[1, 3]] [[5, 0]]
        [[1, 0]] none = Except.ok res ∧
      res.finalAttentionMask = [[1, 0]] ∧
      res.finalLabels = none ∧
      res.finalEmbedding = List.zipWith (fun idrow erow =>
        List.zipWith (fun t e => if t = (0 : Int) then 0 else e) idrow erow)
        [[5, 0]] [[1, 3]] :=
  claim_c3_amended_zero_placeholder ⟨7, 0, -100⟩ 1 [[1, 3]] [[5, 0]] [[1, 0]] none
    (by decide) (by decide) (by decide) (by decide) (by decide) (by decide)
    (fun ls h => by cases h) (fun ls h => by cases h)

theorem getElem?_fillRows_exists (ss : List (List Bool)) : ∀ (rs : List (List Int))
    (feats : List Int) (r : Nat) (s : List Bool) (es : List Int),
    ss[r]? = some s → rs[r]? = some es →
    ∃ fs, (fillRows ss rs feats)[r]? = some (fillRow s es fs).1 := by
  induction ss with
  | nil => intro rs feats r s es hs _; cases hs
  | cons s0 ss' ih =>
    intro rs feats r s es hs hr
    cases rs with
    | nil => cases hr
    | cons es0 rs' =>
      cases r with
      | zero =>
        have hs0 : s0 = s := by simpa using hs
        have he0 : es0 = es := by simpa using hr
        subst hs0 he0
        exact ⟨feats, by simp [fillRows]⟩
      | succ r =>
        rcases ih rs' (fillRow s0 es0 feats).2 r s es (by simpa using hs)
          (by simpa using hr) with ⟨fs, hfs⟩
        exact ⟨fs, by simpa [fillRows] using hfs⟩

/-- Claim C4 counterexample: the destination formula holds, but the
embedding of a non-placeholder pad token is not copied unchanged: at batch
`[[5, 0]]` (pad id 0) with embedding 5 at the pad column, the fused
embedding at its destination is 0, not 5, because the merge zeroes
embeddings at pad destinations. -/
theorem claim_c4_counterexample :
    mergeInputIdsWithTimeSeriesFeatures ⟨7, 0, -100⟩ 1 [] [[2, 5]] [[5, 0]] [[1, 1]] none
      = Except.ok ⟨[[2, 0]], [[1, 1]], none, [[0, 1]]⟩ ∧
    (rowPositions 7 1 (maxEmbedDim 7 1 [[5, 0]]) (leftPadding 0 [[5, 0]]) [5, 0])[1]?
      = some 1 ∧
    (([2, 0] : List Int))[1]? = some 0 ∧ (0 : Int) ≠ 5 := by
  refine ⟨rfl, rfl, rfl, by decide⟩

/-- Claim C4 (amended): for every batch row and token column, the
destination column equals the running sum over columns up to and including
that one (each placeholder contributing `P_patches` slots via weight
`(P-1)+1`, every other token 1 slot) minus one, plus, for left-padded
batches, the per-row shift `max_fused_length - 1 - last_destination`; every
non-placeholder original (row, column) mask bit and label is copied
unchanged to exactly that destination, and so is the embedding unless the
token is the pad token, in which case the fused embedding at that
destination is zeroed. -/
theorem claim_c4_amended_destinations (cfg : MergeConfig) (numPatches : Nat)
    (tsFeatures inputsEmbeds inputIds : List (List Int)) (attentionMask : List (List Nat))
    (labels : Option (List (List Int))) (res : MergeResult) (L : Nat) (hL : 1 ≤ L)
    (hidlen : ∀ row ∈ inputIds, row.length = L)
    (hok : mergeInputIdsWithTimeSeriesFeatures cfg numPatches tsFeatures inputsEmbeds
      inputIds attentionMask labels = Except.ok res)
    (r c : Nat) (idrow erow : List Int) (mrow : List Nat) (tok e : Int) (m : Nat)
    (hid : inputIds[r]? = some idrow) (hemb : inputsEmbeds[r]? = some erow)
    (hmask : attentionMask[r]? = some mrow)
    (htok : idrow[c]? = some tok) (he : erow[c]? = some e) (hm : mrow[c]? = some m)
    (hnotts : tok ≠ cfg.timeSeriesTokenIndex) :
    ∃ d : Nat,
      (rowPositions cfg.timeSeriesTokenIndex numPatches
        (maxEmbedDim cfg.timeSeriesTokenIndex numPatches inputIds)
        (leftPadding cfg.padTokenId inputIds) idrow)[c]? = some d ∧
      d = ((idrow.take (c + 1)).map (tokenWeight numPatches cfg.timeSeriesTokenIndex)).sum
          - 1 + (if leftPadding cfg.padTokenId inputIds then
            rowNbPad cfg.timeSeriesTokenIndex numPatches
              (maxEmbedDim cfg.timeSeriesTokenIndex numPatches inputIds) idrow else 0) ∧
      (res.finalAttentionMask[r]?.bind (fun x => x[d]?)) = some m ∧
      (res.finalEmbedding[r]?.bind (fun x => x[d]?))
        = some (if tok = cfg.padTokenId then 0 else e) ∧
      (∀ ls lrow lv, labels = some ls → ls[r]? = some lrow → lrow[c]? = some lv →
        (res.finalLabels.bind (fun fl => fl[r]?.bind (fun x => x[d]?))) = some lv) := by
  set tsIdx := cfg.timeSeriesTokenIndex with htsIdx
  set maxE := maxEmbedDim tsIdx numPatches inputIds with hmaxE
  set lp := leftPadding cfg.padTokenId inputIds with hlpdef
  have hrowmem : idrow ∈ inputIds := List.getElem?_mem hid
  have hrowlen : idrow.length = L := hidlen idrow hrowmem
  have hc : c < idrow.length := by
    by_contra hcon
    rw [List.getElem?_eq_none (by omega)] at htok
    cases htok
  have hcpos : c < (rowPositions tsIdx numPatches maxE lp idrow).length := by
    rw [length_rowPositions]
    exact hc
  set pos := rowPositions tsIdx numPatches maxE lp idrow with hposdef
  obtain ⟨d, hd⟩ : ∃ d, pos[c]? = some d :=
    ⟨pos[c], List.getElem?_eq_getElem hcpos⟩
  have hdlt : d < maxE :=
    rowPositions_lt_maxE tsIdx numPatches lp inputIds idrow hrowmem L hL hidlen c d hd
  have hpw : pos.Pairwise (· < ·) := pairwise_lt_rowPositions tsIdx numPatches maxE lp idrow
  have hdval : d = ((idrow.take (c + 1)).map (tokenWeight numPatches tsIdx)).sum - 1
      + (if lp then rowNbPad tsIdx numPatches maxE idrow else 0) := by
    rw [hposdef] at hd
    unfold rowPositions at hd
    cases hlp : lp with
    | false =>
      rw [hlp, if_neg (by simp)] at hd
      rw [getElem?_newTokenPositionsRow numPatches tsIdx idrow c hc] at hd
      have hval := Option.some.inj hd
      rw [if_neg Bool.false_ne_true]
      omega
    | true =>
      rw [hlp, if_pos rfl, List.getElem?_map,
        getElem?_newTokenPositionsRow numPatches tsIdx idrow c hc] at hd
      simp only [Option.map_some'] at hd
      have hval := Option.some.inj hd
      rw [if_pos rfl]
      omega
  obtain ⟨hcount, hembF, hmaskF, hlabF, -⟩ := merge_ok_inv cfg numPatches tsFeatures
    inputsEmbeds inputIds attentionMask labels res hok
  have hslot_r : (slotRowsDef tsIdx numPatches maxE lp inputIds)[r]?
      = some (rowSlots tsIdx numPatches maxE lp idrow) := by
    unfold slotRowsDef
    rw [List.getElem?_map, hid]
    rfl
  have hslot_d : (rowSlots tsIdx numPatches maxE lp idrow)[d]? = some false :=
    rowSlots_at_dest tsIdx numPatches maxE lp idrow c tok d htok hnotts hd hdlt
  -- attention mask value
  have hmask_r : (textScatterRows tsIdx numPatches maxE lp inputIds attentionMask 0)[r]?
      = some (writeAll (textWrites tsIdx idrow pos mrow) (List.replicate maxE 0)) := by
    unfold textScatterRows
    exact getElem?_zipWith_some _ _ _ _ _ _ hid hmask
  have hmask0_d : (writeAll (textWrites tsIdx idrow pos mrow)
      (List.replicate maxE (0 : Nat)))[d]? = some m := by
    refine getElem?_writeAll_mem_nodup _ _ _ _ (nodup_textWrites_fst tsIdx idrow pos mrow hpw)
      (textWrites_mem_of_getElem tsIdx idrow pos mrow c tok d m htok hnotts hd hm) ?_
    rw [List.length_replicate]
    exact hdlt
  have hmaskVal : (res.finalAttentionMask[r]?.bind (fun x => x[d]?)) = some m := by
    rw [hmaskF]
    unfold orMaskRows
    rw [getElem?_zipWith_some _ _ _ r _ _ hmask_r hslot_r]
    simp only [Option.some_bind]
    rw [getElem?_zipWith_some _ _ _ d _ _ hmask0_d hslot_d]
    simp [Nat.or_zero]
  -- embedding value
  have hemb_r : (textScatterRows tsIdx numPatches maxE lp inputIds inputsEmbeds 0)[r]?
      = some (writeAll (textWrites tsIdx idrow pos erow) (List.replicate maxE 0)) := by
    unfold textScatterRows
    exact getElem?_zipWith_some _ _ _ _ _ _ hid hemb
  obtain ⟨fs, hfill_r⟩ := getElem?_fillRows_exists
    (slotRowsDef tsIdx numPatches maxE lp inputIds)
    (textScatterRows tsIdx numPatches maxE lp inputIds inputsEmbeds 0)
    tsFeatures.flatten r _ _ hslot_r hemb_r
  have hfill_d : (fillRow (rowSlots tsIdx numPatches maxE lp idrow)
      (writeAll (textWrites tsIdx idrow pos erow) (List.replicate maxE 0)) fs).1[d]?
      = some e := by
    rw [getElem?_fillRow_false _ _ _ d hslot_d]
    refine getElem?_writeAll_mem_nodup _ _ _ _ (nodup_textWrites_fst tsIdx idrow pos erow hpw)
      (textWrites_mem_of_getElem tsIdx idrow pos erow c tok d e htok hnotts hd he) ?_
    rw [List.length_replicate]
    exact hdlt
  have hembVal : (res.finalEmbedding[r]?.bind (fun x => x[d]?))
      = some (if tok = cfg.padTokenId then 0 else e) := by
    rw [hembF]
    unfold padZeroRows
    rw [getElem?_zipWith_some _ _ _ r _ _ hid hfill_r]
    simp only [Option.some_bind]
    by_cases hpad : tok = cfg.padTokenId
    · rw [if_pos hpad]
      refine getElem?_writeAll_const _ (0 : Int) _ d
        (fun q hq => padWrites_snd_zero cfg.padTokenId idrow pos q hq) ?_ ?_
      · have hmem : (d, (0 : Int)) ∈ padWrites cfg.padTokenId idrow pos :=
          padWrites_mem_of_getElem cfg.padTokenId idrow pos c d (hpad ▸ htok) hd
        exact List.mem_map_of_mem Prod.fst hmem
      · rw [length_fillRow, length_writeAll, List.length_replicate]
        exact hdlt
    · rw [if_neg hpad]
      rw [getElem?_writeAll_not_mem _ _ d ?_]
      · exact hfill_d
      · intro q hq hq1
        rcases padWrites_getElem_of_mem cfg.padTokenId idrow pos q hq with ⟨c', hc1, hc2⟩
        rw [hq1] at hc2
        have hcc : c' = c := getElem?_inj_of_pairwise_lt pos hpw c' c d hc2 hd
        rw [hcc, htok] at hc1
        exact hpad (Option.some.inj hc1)
  -- labels value
  refine ⟨d, hd, hdval, hmaskVal, hembVal, ?_⟩
  intro ls lrow lv hls hlsr hlv
  rw [hlabF, hls]
  simp only [Option.map_some', Option.some_bind]
  have hlab_r : (textScatterRows tsIdx numPatches maxE lp inputIds ls cfg.ignoreIndex)[r]?
      = some (writeAll (textWrites tsIdx idrow pos lrow)
        (List.replicate maxE cfg.ignoreIndex)) := by
    unfold textScatterRows
    exact getElem?_zipWith_some _ _ _ _ _ _ hid hlsr
  rw [hlab_r]
  simp only [Option.some_bind]
  refine getElem?_writeAll_mem_nodup _ _ _ _ (nodup_textWrites_fst tsIdx idrow pos lrow hpw)
    (textWrites_mem_of_getElem tsIdx idrow pos lrow c tok d lv htok hnotts hd hlv) ?_
  rw [List.length_replicate]
  exact hdlt

/-- Concrete instantiation of `claim_c4_amended_destinations`: in the
end-to-end scenario the token at row 0 column 3 (id 3, embedding 14, mask 1)
lands at destination 5, and embedding and mask are found there unchanged. -/
theorem claim_c4_witness :
    ∃ d : Nat,
      (rowPositions 9 3 (maxEmbedDim 9 3 [[1, 2, 9, 3, 4], [5, 6, 7, 8, 0]])
        (leftPadding 0 [[1, 2, 9, 3, 4], [5, 6, 7, 8, 0]]) [1, 2, 9, 3, 4])[3]?
        = some d ∧
      (([[11, 12, 71, 72, 73, 14, 15], [21, 22, 23, 24, 0, 0, 0]] :
        List (List Int))[0]?.bind (fun x => x[d]?)) = some 14 ∧
      (([[1, 1, 1, 1, 1, 1, 1], [1, 1, 1, 1, 0, 0, 0]] :
        List (List Nat))[0]?.bind (fun x => x[d]?)) = some 1 := by
  obtain ⟨d, hd, -, hmask, hemb, -⟩ := claim_c4_amended_destinations ⟨9, 0, -100⟩ 3
    [[71, 72, 73]] [[11, 12, 13, 14, 15], [21, 22, 23, 24, 25]]
    [[1, 2, 9, 3, 4], [5, 6, 7, 8, 0]] [[1, 1, 1, 1, 1], [1, 1, 1, 1, 0]] none
    ⟨[[11, 12, 71, 72, 73, 14, 15], [21, 22, 23, 24, 0, 0, 0]],
      [[1, 1, 1, 1, 1, 1, 1], [1, 1, 1, 1, 0, 0, 0]], none,
      [[0, 1, 2, 3, 4, 5, 6], [0, 1, 2, 3, 1, 1, 1]]⟩
    5 (by decide) (by decide) (by rfl) 0 3 [1, 2, 9, 3, 4] [11, 12, 13, 14, 15]
    [1, 1, 1, 1, 1] 3 14 1 rfl rfl rfl rfl rfl rfl (by decide)
  refine ⟨d, hd, ?_, hmask⟩
  rw [if_neg (by decide : ¬(3 : Int) = MergeConfig.padTokenId ⟨9, 0, -100⟩)] at hemb
  exact hemb

theorem blendFeature_zero (fallback : List ℚ) : ∀ x : List ℚ,
    blendFeature fallback 0 x = fallback.take x.length := by
  unfold blendFeature
  induction fallback with
  | nil => intro x; cases x <;> simp
  | cons f fs ih =>
    intro x
    cases x with
    | nil => rfl
    | cons xi xs =>
      rw [List.zipWith_cons_cons, List.length_cons, List.take_succ_cons, ih xs]
      congr 1
      ring

/-- Claim C6: the projector returns, at each patch position, the two-layer
feed-forward transform (linear, then the activation, then linear) applied to
`validity * raw_feature + (1 - validity) * fallback`; at fully masked
positions (validity 0) the blend equals the fallback vector (truncated to
the feature width), so the output depends only on the fallback vector and
not on the raw feature. -/
theorem claim_c6_projector (w1 : List (List ℚ)) (b1 : List ℚ) (w2 : List (List ℚ))
    (b2 : List ℚ) (act : ℚ → ℚ) (fallback : List ℚ)
    (features : List (List (List ℚ))) (inputMask : List (List ℚ))
    (i p : Nat) (inst : List (List ℚ)) (x : List ℚ) (mrow : List ℚ) (m : ℚ)
    (hi : features[i]? = some inst) (hx : inst[p]? = some x)
    (hmi : inputMask[i]? = some mrow) (hm : mrow[p]? = some m) :
    ((projectorForward w1 b1 w2 b2 act fallback features inputMask)[i]?.bind
        (fun r => r[p]?))
      = some (linearLayer w2 b2
          ((linearLayer w1 b1 (blendFeature fallback m x)).map act)) ∧
    (m = 0 → ∀ x' : List ℚ, x'.length = x.length →
      linearLayer w2 b2 ((linearLayer w1 b1 (blendFeature fallback m x')).map act)
        = linearLayer w2 b2 ((linearLayer w1 b1 (blendFeature fallback m x)).map act)) := by
  constructor
  · unfold projectorForward
    rw [getElem?_zipWith_some _ _ _ i _ _ hi hmi]
    simp only [Option.some_bind]
    exact getElem?_zipWith_some _ _ _ p _ _ hx hm
  · intro hm0 x' hlen
    subst hm0
    rw [blendFeature_zero fallback x', blendFeature_zero fallback x, hlen]

/-- Concrete instantiation of `claim_c6_projector` at a fully masked patch:
the output is the feed-forward transform of the fallback vector alone. -/
theorem claim_c6_witness :
    ((projectorForward [[1]] [0] [[1]] [0] (fun q => q) [5] [[[2]]] [[0]])[0]?.bind
        (fun r => r[0]?))
      = some (linearLayer [[1]] [0]
          ((linearLayer [[1]] [0] (blendFeature [5] 0 [2])).map (fun q => q))) ∧
    ((0 : ℚ) = 0 → ∀ x' : List ℚ, x'.length = ([2] : List ℚ).length →
      linearLayer [[1]] [0] ((linearLayer [[1]] [0] (blendFeature [5] 0 x')).map
        (fun q => q))
        = linearLayer [[1]] [0] ((linearLayer [[1]] [0] (blendFeature [5] 0 [2])).map
          (fun q => q))) :=
  claim_c6_projector [[1]] [0] [[1]] [0] (fun q => q) [5] [[[2]]] [[0]] 0 0
    [[2]] [2] [0] 0 rfl rfl rfl rfl

theorem extendedRow_bounded (bRow : List (List ℚ)) (s : Nat) :
    ∀ x ∈ extendedRow bRow s, x ≤ 1 := by
  intro x hx
  rcases List.mem_map.1 hx with ⟨q, _, hq⟩
  rw [← hq]
  split <;> omega

/-- Claim C7: on a decode step (cache present, time-series values present,
input length exactly 1), the position id forwarded to the language model
equals the count of nonzero entries of the extended attention mask (the
cache-length mask with zero-summed cache slots un-attended concatenated with
the current step's mask suffix) minus one, per batch row.  The incoming
attention mask is 0/1-valued as required by the data model. -/
theorem claim_c7_decode_position {α β : Type} (cfg : MergeConfig) (embedLookup : Int → Int)
    (encodeTS : α → Option β → List (List Int)) (inputIds : List (List Int)) (v : α)
    (tsMask : Option β) (attnMask : List (List Nat)) (posIds : Option (List (List Int)))
    (kv : List (List (List (List ℚ)))) (labels : Option (List (List Int)))
    (hseq : seqLength inputIds = 1)
    (hmask : ∀ mrow ∈ attnMask, ∀ x ∈ mrow, x ≤ 1) :
    ∃ li, forwardLMInputs cfg embedLookup encodeTS inputIds (some v) tsMask attnMask
        posIds (some kv) labels none = Except.ok li ∧
      li.attentionMask = (cacheStep kv attnMask).1 ∧
      li.positionIds = some (cacheStep kv attnMask).2 ∧
      (∀ (b : Nat) (mrow : List Nat), li.attentionMask[b]? = some mrow →
        (cacheStep kv attnMask).2[b]?
          = some [(((mrow.countP (fun x => x != 0)) : Nat) : Int) - 1]) := by
  have hcond : ¬ (seqLength inputIds ≠ 1) := by omega
  refine ⟨⟨inputIds.map (fun row => row.map embedLookup), (cacheStep kv attnMask).1,
    some (cacheStep kv attnMask).2⟩, ?_, rfl, rfl, ?_⟩
  · show (if seqLength inputIds ≠ 1 then _ else _ : Except Unit LMInputs) = _
    rw [if_neg hcond]
  · intro b mrow hb
    show ((cacheStep kv attnMask).1.map (fun r => [((r.sum : Nat) : Int) - 1]))[b]? = _
    rw [List.getElem?_map, hb]
    simp only [Option.map_some']
    congr 2
    have hble : ∀ x ∈ mrow, x ≤ 1 := by
      have hrow : mrow ∈ (cacheStep kv attnMask).1 := List.getElem?_mem hb
      unfold cacheStep at hrow
      rcases List.mem_iff_getElem?.1 hrow with ⟨r, hr⟩
      rcases getElem?_zipWith_inv _ _ _ _ _ hr with ⟨bRow, amRow, _, ham, hx⟩
      subst hx
      intro x hx
      rcases List.mem_append.1 hx with h1 | h1
      · exact extendedRow_bounded bRow _ x h1
      · exact hmask amRow (List.getElem?_mem ham) x (List.mem_of_mem_drop h1)
    rw [sum_eq_countP_of_le_one mrow hble]

/-- Concrete instantiation of `claim_c7_decode_position`: a one-token decode
step over a cache of length 2 whose second slot has zero-summed keys; the
forwarded position id is (count of nonzero mask entries) - 1 = 1. -/
theorem claim_c7_witness :
    ∃ li, forwardLMInputs (α := Unit) (β := Unit) ⟨9, 0, -100⟩ (fun t => t)
        (fun _ _ => []) [[3]] (some ()) none [[1]] none
        (some [[[[1], [0]]]]) none none = Except.ok li ∧
      li.attentionMask = (cacheStep [[[[1], [0]]]] [[1]]).1 ∧
      li.positionIds = some (cacheStep [[[[1], [0]]]] [[1]]).2 ∧
      (∀ (b : Nat) (mrow : List Nat), li.attentionMask[b]? = some mrow →
        (cacheStep [[[[1], [0]]]] [[1]]).2[b]?
          = some [(((mrow.countP (fun x => x != 0)) : Nat) : Int) - 1]) :=
  claim_c7_decode_position ⟨9, 0, -100⟩ (fun t => t) (fun _ _ => []) [[3]] ()
    none [[1]] none [[[[1], [0]]]] none rfl (by decide)

/-- Claim C9: when `inputs_embeds` is supplied, the embeddings passed to the
language model are exactly the supplied ones, the attention mask and
position ids pass through unchanged (the merge and cache-adjustment logic is
skipped), and two calls differing only in the time-series values and mask
hand identical inputs to the language model. -/
theorem claim_c9_inputs_embeds_passthrough {α β : Type} (cfg : MergeConfig)
    (embedLookup : Int → Int) (encodeTS : α → Option β → List (List Int))
    (inputIds : List (List Int)) (tsv tsv' : Option α) (tsm tsm' : Option β)
    (attnMask : List (List Nat)) (posIds : Option (List (List Int)))
    (pastKV : Option (List (List (List (List ℚ))))) (labels : Option (List (List Int)))
    (e : List (List Int)) :
    forwardLMInputs cfg embedLookup encodeTS inputIds tsv tsm attnMask posIds pastKV
        labels (some e) = Except.ok ⟨e, attnMask, posIds⟩ ∧
    forwardLMInputs cfg embedLookup encodeTS inputIds tsv' tsm' attnMask posIds pastKV
        labels (some e)
      = forwardLMInputs cfg embedLookup encodeTS inputIds tsv tsm attnMask posIds pastKV
        labels (some e) := ⟨rfl, rfl⟩

end Mists
